import Mathlib

/-!
Verification development for the traffic-lattice construction and
registration subsystem of the conformal lattice planner.

The development shallowly embeds the two source files
(`traffic_lattice.h` and its template implementation): road-network and
lattice services that the core calls (`map_->GetWaypoint`, `closestNode`,
node forward links, road lengths, the router) are modelled as explicit
environment parameters, machine `double` quantities are modelled as `ℚ`
(and as `ℝ` for the trigonometric vehicle geometry), `size_t` identifiers
as `Nat`, and the mutable lattice/table state of `registerVehicles` is
threaded explicitly.
-/

/-- A Carla waypoint as the core observes it: road id, signed lane id and
the `GetDistance()` offset on its road.  Models
`carla::client::Waypoint` restricted to the fields the core reads. -/
structure Wp where
  roadId : Nat
  laneId : Int
  dist : ℚ
deriving DecidableEq, Repr

/-- The road-network and geometry services used by `latticeStartAndRange`:
`vehicleWp` models `map_->GetWaypoint(transform.location)` (the center
waypoint), `rearWp`/`headWp` model `vehicleRearWaypoint`/`vehicleHeadWaypoint`
(geometry composed with the map lookup), and `roadLength` models
`map_->GetMap().GetMap().GetRoad(id).GetLength()`.  Transforms and bounding
boxes are opaque handles (`Nat`). -/
structure LSEnv where
  vehicleWp : Nat → Wp
  rearWp : Nat → Nat → Wp
  headWp : Nat → Nat → Wp
  roadLength : Nat → ℚ

/-- One element of the `VehicleTuple` vector: id plus opaque transform and
bounding-box handles. -/
structure VehicleTuple where
  id : Nat
  transform : Nat
  bbox : Nat
deriving DecidableEq, Repr

instance : Inhabited VehicleTuple := ⟨⟨0, 0, 0⟩⟩

/-- `TrafficLattice::waypointToRoadStartDistance` (traffic_lattice.h,
lines 192-201): lane id `0` throws, positive lane id gives
`road length − waypoint distance`, negative lane id gives the waypoint
distance directly.  The thrown exception is modelled as `none`. -/
def waypointToRoadStartDistance (env : LSEnv) (w : Wp) : Option ℚ :=
  if w.laneId = 0 then none
  else if w.laneId > 0 then some (env.roadLength w.roadId - w.dist)
  else some w.dist

/-- The total distance function used inside comparators and the range
adjustment; on waypoints with nonzero lane id it agrees with
`waypointToRoadStartDistance`. -/
def wpDist (env : LSEnv) (w : Wp) : ℚ :=
  if w.laneId > 0 then env.roadLength w.roadId - w.dist else w.dist

/-- The router service: `nextRoad`/`prevRoad` model
`router_->nextRoad` and `router_->prevRoad` (`boost::optional<size_t>`). -/
structure Router where
  nextRoad : Nat → Option Nat
  prevRoad : Nat → Option Nat

/-- State of the `sortRoads` expansion loop: the deque of sorted roads and
the set of input roads not yet consumed (as a duplicate-free list). -/
structure SRState where
  sorted : List Nat
  remaining : List Nat
deriving DecidableEq, Repr

/-- The prepend half of one `sortRoads` expansion round (lines 291,
294-297): if the router has a predecessor for the recorded front, push it
to the front of the deque and erase it from the remaining set. -/
def prependStep (r : Router) (st : SRState) (fr : Nat) : SRState :=
  match r.prevRoad fr with
  | some nf => ⟨nf :: st.sorted, st.remaining.erase nf⟩
  | none => st

/-- The append half of one `sortRoads` expansion round (lines 292,
298-301): if the router has a successor for the recorded back, push it to
the back of the deque and erase it from the remaining set. -/
def appendStep (r : Router) (st : SRState) (ba : Nat) : SRState :=
  match r.nextRoad ba with
  | some nl => ⟨st.sorted ++ [nl], st.remaining.erase nl⟩
  | none => st

/-- One iteration of the `sortRoads` expansion loop (part_000, lines
285-303): read the current front and back roads first, then prepend the
router's predecessor of the front and append the router's successor of
the back when they exist. -/
def expandRound (r : Router) (st : SRState) : SRState :=
  appendStep r (prependStep r st (st.sorted.headD 0)) (st.sorted.getLastD 0)

/-- The bounded expansion loop of `sortRoads`: up to `fuel` rounds (the
source uses 5), breaking as soon as the remaining set becomes empty at the
end of a round. -/
def sortRoadsLoop (r : Router) : Nat → SRState → SRState
  | 0, st => st
  | fuel + 1, st =>
    let st' := expandRound r st
    if st'.remaining = [] then st' else sortRoadsLoop r fuel st'

/-- The same expansion loop without the early break, used to state C6's
"after exactly 5 expansion rounds" condition. -/
def fullRounds (r : Router) : Nat → SRState → SRState
  | 0, st => st
  | fuel + 1, st => fullRounds r fuel (expandRound r st)

/-- The front-trimming loop of `sortRoads` (lines 315-316): pop roads from
the front of the deque while they are not members of the input set.  The
fuel argument makes the recursion structural; called with the list length
it is exact. -/
def trimFront (roads : List Nat) : Nat → List Nat → List Nat
  | 0, l => l
  | fuel + 1, l =>
    match l with
    | [] => []
    | x :: xs => if x ∈ roads then x :: xs else trimFront roads fuel xs

/-- The back-trimming loop of `sortRoads` (lines 317-318), expressed by
trimming the front of the reversed list. -/
def trimBack (roads : List Nat) (l : List Nat) : List Nat :=
  (trimFront roads l.reverse.length l.reverse).reverse

/-- `TrafficLattice::sortRoads` (part_000, lines 270-321): seed the deque
with one road of the input set, expand up to 5 rounds via the router,
throw (`none`) if roads remain unconsumed, then trim both ends down to
members of the input set.  The input set is a duplicate-free list whose
head plays the role of `*remaining_roads.begin()`. -/
def sortRoads (r : Router) (roads : List Nat) : Option (List Nat) :=
  match roads with
  | [] => none
  | seed :: rest =>
    let st := sortRoadsLoop r 5 ⟨[seed], rest⟩
    if st.remaining = [] then
      some (trimBack roads (trimFront roads st.sorted.length st.sorted))
    else none

/-- A router with no connections at all, for witnesses. -/
def exRouterNone : Router := ⟨fun _ => none, fun _ => none⟩

/-- Invariant of the `sortRoads` expansion loop: the deque is non-empty,
still contains the seed, forms a forward chain under the router's
successor relation, and together with the remaining set covers the input
road set. -/
def SRInv (r : Router) (roads : List Nat) (seed : Nat) (st : SRState) : Prop :=
  st.sorted ≠ [] ∧ seed ∈ st.sorted ∧
  List.Chain' (fun a b => r.nextRoad a = some b) st.sorted ∧
  ∀ x ∈ roads, x ∈ st.sorted ∨ x ∈ st.remaining

/-- A concrete linear-corridor router for witnesses: roads 5 → 6 → 7. -/
def exRouterChain : Router where
  nextRoad := fun x => if x = 5 then some 6 else if x = 6 then some 7 else none
  prevRoad := fun x => if x = 6 then some 5 else if x = 7 then some 6 else none

/-- Outcomes of `registerVehicles` other than success: the two thrown
exceptions, the `return false` collision path, and a model-only fuel
bound for the rear-to-head walk (whose C++ loop is unbounded). -/
inductive RegErr where
  | offLattice
  | disconnected
  | collision
  | noFuel
deriving DecidableEq, Repr

/-- The lattice and geometry services used by `registerVehicles`:
`headWp`/`rearWp` model `vehicleHeadWaypoint`/`vehicleRearWaypoint`
composed with the map lookup, giving the waypoint id at the vehicle's
head/rear reference point; `closestNode` models `Lattice::closestNode`
(waypoint id, tolerance); `front` models a node's forward neighbor link.
Nodes are identified by their waypoint id, matching the source's
comparison of `waypoint()->GetId()`. -/
structure RegEnv where
  headWp : Nat → Nat → Nat
  rearWp : Nat → Nat → Nat
  closestNode : Nat → ℚ → Option Nat
  front : Nat → Option Nat

/-- Result of the rear-to-head node walk. -/
inductive WalkRes where
  | ok (ns : List Nat)
  | disconnected
  | noFuel
deriving DecidableEq, Repr

/-- The rear-to-head walk of `registerVehicles` (part_000, lines 242-251):
starting at the rear node, collect nodes and follow forward links until
the head node is reached; a missing forward link is the disconnected
error.  `fuel` bounds the number of steps (the C++ `while` loop has no
bound). -/
def walk (front : Nat → Option Nat) (hd : Nat) : Nat → Nat → WalkRes
  | 0, _ => .noFuel
  | fuel + 1, cur =>
    if cur = hd then .ok [hd]
    else
      match front cur with
      | none => .disconnected
      | some nxt =>
        match walk front hd fuel nxt with
        | .ok ns => .ok (cur :: ns)
        | e => e

/-- The occupancy-marking loop of `registerVehicles` (lines 256-259): mark
each collected node one at a time with the vehicle id, stopping with
`false` at the first node that already carries a vehicle.  The returned
occupancy reflects the marks made before the stop, as in the source. -/
def markNodes (id : Nat) : (Nat → Option Nat) → List Nat → ((Nat → Option Nat) × Bool)
  | occ, [] => (occ, true)
  | occ, n :: ns =>
    match occ n with
    | some _ => (occ, false)
    | none => markNodes id (fun m => if m = n then some id else occ m) ns

/-- Mutable state of `registerVehicles`: the per-node occupying vehicle
(`WaypointNodeWithVehicle::vehicle_`) and `vehicle_to_nodes_table_`. -/
structure RegState where
  occ : Nat → Option Nat
  table : List (Nat × List Nat)

/-- The nearest-node tolerance used during registration:
`longitudinal_resolution_ / 2.0` (lines 234-237). -/
def regTolerance (res : ℚ) : ℚ := res / 2

/-- The per-vehicle part of `registerVehicles` that does not depend on
the occupancy state: resolve the head and rear reference waypoints to
nodes and walk rear → head.  Returns the collected node list on success. -/
def resolveNodes (env : RegEnv) (fuel : Nat) (res : ℚ) (v : VehicleTuple) :
    Option (List Nat) :=
  match env.closestNode (env.headWp v.transform v.bbox) (regTolerance res),
        env.closestNode (env.rearWp v.transform v.bbox) (regTolerance res) with
  | some hn, some rn =>
    match walk env.front hn fuel rn with
    | .ok ns => some ns
    | _ => none
  | _, _ => none

/-- The node list of a vehicle when resolution succeeds (default `[]`). -/
def nodesOfD (env : RegEnv) (fuel : Nat) (res : ℚ) (v : VehicleTuple) : List Nat :=
  (resolveNodes env fuel res v).getD []

/-- The vehicle loop of `TrafficLattice::registerVehicles` (part_000,
lines 221-263): for each vehicle resolve head/rear nodes (throwing
`offLattice` if either lookup fails), walk rear → head (throwing
`disconnected` on a missing link), mark the collected nodes one at a time
(returning `collision` if one is already occupied), and only then append
the vehicle's entry to the table. -/
def registerVehiclesAux (env : RegEnv) (fuel : Nat) (res : ℚ) :
    RegState → List VehicleTuple → RegState × Option RegErr
  | st, [] => (st, none)
  | st, v :: vs =>
    match env.closestNode (env.headWp v.transform v.bbox) (regTolerance res),
          env.closestNode (env.rearWp v.transform v.bbox) (regTolerance res) with
    | some hn, some rn =>
      match walk env.front hn fuel rn with
      | .ok ns =>
        match markNodes v.id st.occ ns with
        | (occ', true) =>
          registerVehiclesAux env fuel res ⟨occ', st.table ++ [(v.id, ns)]⟩ vs
        | (occ', false) => (⟨occ', st.table⟩, some .collision)
      | .disconnected => (st, some .disconnected)
      | .noFuel => (st, some .noFuel)
    | _, _ => (st, some .offLattice)

/-- The all-unoccupied node state (a freshly constructed lattice). -/
def emptyOcc : Nat → Option Nat := fun _ => none

/-- `TrafficLattice::registerVehicles` (part_000, lines 215-266): clear
the vehicle-to-nodes table, then run the vehicle loop from the given node
occupancy state. -/
def registerVehicles (env : RegEnv) (fuel : Nat) (res : ℚ)
    (occ0 : Nat → Option Nat) (vehicles : List VehicleTuple) :
    RegState × Option RegErr :=
  registerVehiclesAux env fuel res ⟨occ0, []⟩ vehicles

/-- A concrete environment for witnesses: road `r` has length `10`. -/
def exLSEnv : LSEnv where
  vehicleWp := fun _ => ⟨0, 1, 0⟩
  rearWp := fun _ _ => ⟨0, 1, 0⟩
  headWp := fun _ _ => ⟨0, 1, 0⟩
  roadLength := fun _ => 10

/-- A concrete registration environment for witnesses: nodes are waypoint
ids `0..5`, linked forward `n ↦ n+1` up to 5; a vehicle's transform handle
is its rear waypoint and its head waypoint is one node further. -/
def exRegEnv : RegEnv where
  headWp := fun tf _ => tf + 1
  rearWp := fun tf _ => tf
  closestNode := fun w _ => if w ≤ 5 then some w else none
  front := fun n => if n < 5 then some (n + 1) else none

/-- A registration environment whose lattice breaks after node 1, so a
rear-to-head walk from 0 to 3 hits a missing forward link. -/
def exRegEnvDisc : RegEnv where
  headWp := fun tf _ => tf + 3
  rearWp := fun tf _ => tf
  closestNode := fun w _ => some w
  front := fun n => if n < 1 then some (n + 1) else none

/-- The distance key used to sort vehicles on one road (lines 154-161):
`waypointToRoadStartDistance(vehicleWaypoint(transform))`. -/
def vehicleDist (env : LSEnv) (v : VehicleTuple) : ℚ :=
  wpDist env (env.vehicleWp v.transform)

/-- Insertion into a distance-sorted vehicle list (models the comparator
`d0 < d1` of the `std::sort` call). -/
def insertByDist (env : LSEnv) (v : VehicleTuple) :
    List VehicleTuple → List VehicleTuple
  | [] => [v]
  | u :: us =>
    if vehicleDist env v < vehicleDist env u then v :: u :: us
    else u :: insertByDist env v us

/-- Distance sort of the vehicles grouped on one road (lines 154-161). -/
def sortByDist (env : LSEnv) : List VehicleTuple → List VehicleTuple
  | [] => []
  | v :: vs => insertByDist env v (sortByDist env vs)

/-- The road id of a vehicle's center waypoint (line 144). -/
def centerRoad (env : LSEnv) (v : VehicleTuple) : Nat :=
  (env.vehicleWp v.transform).roadId

/-- The distinct road ids touched by the vehicles' center waypoints
(the key set of `road_to_vehicles_table`, lines 142-149, 165-167). -/
def roadsOf (env : LSEnv) (vs : List VehicleTuple) : List Nat :=
  (vs.map (centerRoad env)).dedup

/-- The vehicles of one road, sorted by distance-from-road-start
(`road_to_vehicles_table[road]` after the sort, lines 142-161). -/
def vehiclesOnRoad (env : LSEnv) (vs : List VehicleTuple) (road : Nat) :
    List VehicleTuple :=
  sortByDist env (vs.filter (fun v => centerRoad env v == road))

/-- `TrafficLattice::latticeStartAndRange` (part_000, lines 122-212):
group the vehicles by center road, sort each group by distance, chain the
roads with `sortRoads`, take the rear waypoint of the first (minimum
distance) vehicle on the first road and the head waypoint of the last
(maximum distance) vehicle on the last road, and compute the range as the
sum of the chain's road lengths trimmed (or padded by 5) at both ends.
Returns `none` when `sortRoads` fails (its thrown error). -/
def latticeStartAndRange (env : LSEnv) (r : Router) (vs : List VehicleTuple) :
    Option (Wp × ℚ) :=
  match sortRoads r (roadsOf env vs) with
  | none => none
  | some sorted =>
    let fr := sorted.headD 0
    let lr := sorted.getLastD 0
    let fv := (vehiclesOnRoad env vs fr).headD default
    let lv := (vehiclesOnRoad env vs lr).getLastD default
    let fw := env.rearWp fv.transform fv.bbox
    let lw := env.headWp lv.transform lv.bbox
    let base := (sorted.map env.roadLength).sum
    let r1 := if fw.roadId = fr then base - wpDist env fw else base + 5
    let r2 := if lw.roadId = lr then r1 - (env.roadLength lr - wpDist env lw)
              else r1 + 5
    some (fw, r2)

/-- The hardcoded longitudinal resolution of both `TrafficLattice`
constructors (part_000, lines 44-45 and 80-81). -/
def trafficLatticeResolution : ℚ := 1

/-- Construction failures of a `TrafficLattice`. -/
inductive BuildErr where
  | estimation
  | spanTooSmall
  | registration (e : RegErr)
deriving DecidableEq, Repr

/-- The `TrafficLattice` constructor pipeline (part_000, lines 27-53):
estimate start and range, fail if the range does not exceed the hardcoded
resolution (`baseConstructor`, lines 101-105), then register the vehicles
on a fresh lattice, failing on any registration error. -/
def buildTrafficLattice (env : LSEnv) (r : Router) (renv : RegEnv) (fuel : Nat)
    (vs : List VehicleTuple) : Except BuildErr RegState :=
  match latticeStartAndRange env r vs with
  | none => .error .estimation
  | some (_, range) =>
    if range ≤ trafficLatticeResolution then .error .spanTooSmall
    else
      match registerVehicles renv fuel trafficLatticeResolution emptyOcc vs with
      | (st, none) => .ok st
      | (_, some e) => .error (.registration e)

/-- A concrete environment whose estimated span is only 1/2, for the C10
witness: one road of length 1/2 with a single vehicle. -/
def exLSEnvSmall : LSEnv where
  vehicleWp := fun _ => ⟨0, 1, 0⟩
  rearWp := fun _ _ => ⟨0, 1, 1/2⟩
  headWp := fun _ _ => ⟨0, 1, 0⟩
  roadLength := fun _ => 1/2

/-- A concrete two-vehicle, one-road environment for the C4 witness:
vehicles with transform handles 7 and 3 sit at road-start distances 7 and
3 on road 0 (negative lane, length 100); rear points sit 0 behind and
head points 2 ahead of the centers. -/
def exLSEnvW : LSEnv where
  vehicleWp := fun tf => if tf = 7 then ⟨0, -1, 7⟩ else ⟨0, -1, 3⟩
  rearWp := fun tf _ => if tf = 7 then ⟨0, -1, 7⟩ else ⟨0, -1, 3⟩
  headWp := fun tf _ => if tf = 7 then ⟨0, -1, 9⟩ else ⟨0, -1, 5⟩
  roadLength := fun _ => 100

/-- A 3-D location (`carla::geom::Location`) over the reals. -/
structure LocationR where
  x : ℝ
  y : ℝ
  z : ℝ

/-- The rotation part of a transform; only yaw (in degrees) is read. -/
structure RotationR where
  yaw : ℝ

/-- `carla::geom::Transform` restricted to the fields the geometry reads. -/
structure TransformR where
  location : LocationR
  rotation : RotationR

/-- `carla::geom::BoundingBox` restricted to `extent.x` (the half length
along the heading axis). -/
structure BoundingBoxR where
  extentX : ℝ

/-- The location computed by `TrafficLattice::vehicleHeadWaypoint`
(part_000, lines 323-345) before the map lookup: yaw degrees → radians,
then add `(cos·extent, sin·extent)` to the center, z unchanged.  The
trigonometric library functions and π are taken as parameters. -/
noncomputable def vehicleHeadWaypointLocation (sin cos : ℝ → ℝ) (pi : ℝ)
    (tf : TransformR) (bb : BoundingBoxR) : LocationR :=
  { x := cos (tf.rotation.yaw / 180 * pi) * bb.extentX + tf.location.x,
    y := sin (tf.rotation.yaw / 180 * pi) * bb.extentX + tf.location.y,
    z := tf.location.z }

/-- The location computed by `TrafficLattice::vehicleRearWaypoint`
(part_000, lines 347-368): subtract the same forward offset. -/
noncomputable def vehicleRearWaypointLocation (sin cos : ℝ → ℝ) (pi : ℝ)
    (tf : TransformR) (bb : BoundingBoxR) : LocationR :=
  { x := -cos (tf.rotation.yaw / 180 * pi) * bb.extentX + tf.location.x,
    y := -sin (tf.rotation.yaw / 180 * pi) * bb.extentX + tf.location.y,
    z := tf.location.z }

theorem wpDist_eq_waypointToRoadStartDistance (env : LSEnv) (w : Wp)
    (h : w.laneId ≠ 0) : waypointToRoadStartDistance env w = some (wpDist env w) := by
  unfold waypointToRoadStartDistance wpDist
  simp only [h, if_false]
  split <;> rfl

/-- C7: `waypointToRoadStartDistance` returns length − offset for positive
lane id, the offset for negative lane id, and fails for lane id `0`. -/
theorem C7_waypointToRoadStartDistance_spec (env : LSEnv) (w : Wp) :
    (w.laneId > 0 →
      waypointToRoadStartDistance env w = some (env.roadLength w.roadId - w.dist)) ∧
    (w.laneId < 0 →
      waypointToRoadStartDistance env w = some w.dist) ∧
    (w.laneId = 0 →
      waypointToRoadStartDistance env w = none) := by
  refine ⟨fun hpos => ?_, fun hneg => ?_, fun hzero => ?_⟩
  · unfold waypointToRoadStartDistance
    have : w.laneId ≠ 0 := by omega
    simp [this, hpos]
  · unfold waypointToRoadStartDistance
    have h0 : w.laneId ≠ 0 := by omega
    have h1 : ¬ w.laneId > 0 := by omega
    simp [h0, h1]
  · unfold waypointToRoadStartDistance
    simp [hzero]

theorem sortRoadsLoop_zero (r : Router) (st : SRState) :
    sortRoadsLoop r 0 st = st := rfl

theorem sortRoadsLoop_succ (r : Router) (k : Nat) (st : SRState) :
    sortRoadsLoop r (k + 1) st =
      if (expandRound r st).remaining = [] then expandRound r st
      else sortRoadsLoop r k (expandRound r st) := rfl

theorem fullRounds_succ (r : Router) (k : Nat) (st : SRState) :
    fullRounds r (k + 1) st = fullRounds r k (expandRound r st) := rfl

theorem prependStep_remaining_nil (r : Router) (st : SRState) (fr : Nat)
    (h : st.remaining = []) : (prependStep r st fr).remaining = [] := by
  unfold prependStep
  split <;> simp_all

theorem appendStep_remaining_nil (r : Router) (st : SRState) (ba : Nat)
    (h : st.remaining = []) : (appendStep r st ba).remaining = [] := by
  unfold appendStep
  split <;> simp_all

theorem expandRound_remaining_nil (r : Router) (st : SRState)
    (h : st.remaining = []) : (expandRound r st).remaining = [] :=
  appendStep_remaining_nil r _ _ (prependStep_remaining_nil r st _ h)

theorem fullRounds_remaining_nil (r : Router) (k : Nat) (st : SRState)
    (h : st.remaining = []) : (fullRounds r k st).remaining = [] := by
  induction k generalizing st with
  | zero => exact h
  | succ k ih =>
    rw [fullRounds_succ]
    exact ih _ (expandRound_remaining_nil r st h)

theorem sortRoadsLoop_remaining_iff (r : Router) (k : Nat) (st : SRState) :
    (sortRoadsLoop r k st).remaining = [] ↔ (fullRounds r k st).remaining = [] := by
  induction k generalizing st with
  | zero => exact Iff.rfl
  | succ k ih =>
    rw [sortRoadsLoop_succ, fullRounds_succ]
    by_cases h : (expandRound r st).remaining = []
    · rw [if_pos h]
      exact ⟨fun _ => fullRounds_remaining_nil r k _ h, fun _ => h⟩
    · rw [if_neg h]
      exact ih _

theorem sortRoadsLoop_stable (r : Router) (j k : Nat) (st : SRState)
    (hk : 1 ≤ k) (h : (sortRoadsLoop r k st).remaining = []) :
    sortRoadsLoop r (k + j) st = sortRoadsLoop r k st := by
  induction k generalizing st with
  | zero => omega
  | succ k ih =>
    have hsp : k + 1 + j = (k + j) + 1 := by omega
    by_cases he : (expandRound r st).remaining = []
    · rw [hsp, sortRoadsLoop_succ, sortRoadsLoop_succ, if_pos he, if_pos he]
    · rw [hsp, sortRoadsLoop_succ, if_neg he]
      rw [sortRoadsLoop_succ, if_neg he] at h
      rcases Nat.eq_zero_or_pos k with hk0 | hkpos
      · subst hk0
        rw [sortRoadsLoop_zero] at h
        exact absurd h he
      · rw [sortRoadsLoop_succ, if_neg he]
        exact ih _ hkpos h

/-- C6: `sortRoads` raises the unsortable-roads error exactly when the
remaining set is still non-empty after the 5 expansion rounds (each round
prepending the router's predecessor of the front and appending the
router's successor of the back, when they exist), and the loop stops early
as soon as the remaining set becomes empty: reaching an empty remaining
set after `k ≤ 5` rounds makes the remaining rounds a no-op. -/
theorem C6_sortRoads_error_iff (r : Router) (seed : Nat) (rest : List Nat) :
    (sortRoads r (seed :: rest) = none ↔
      (fullRounds r 5 ⟨[seed], rest⟩).remaining ≠ []) ∧
    (∀ k, 1 ≤ k → k ≤ 5 →
      (sortRoadsLoop r k ⟨[seed], rest⟩).remaining = [] →
      sortRoadsLoop r 5 ⟨[seed], rest⟩ = sortRoadsLoop r k ⟨[seed], rest⟩) := by
  constructor
  · have hdef : sortRoads r (seed :: rest) =
        (if (sortRoadsLoop r 5 ⟨[seed], rest⟩).remaining = [] then
          some (trimBack (seed :: rest) (trimFront (seed :: rest)
            (sortRoadsLoop r 5 ⟨[seed], rest⟩).sorted.length
            (sortRoadsLoop r 5 ⟨[seed], rest⟩).sorted))
         else none) := rfl
    rw [hdef, Ne, ← sortRoadsLoop_remaining_iff]
    by_cases h : (sortRoadsLoop r 5 ⟨[seed], rest⟩).remaining = [] <;> simp [h]
  · intro k hk1 hk5 h
    have : 5 = k + (5 - k) := by omega
    rw [this]
    exact sortRoadsLoop_stable r (5 - k) k _ hk1 h

/-- Witness for C6: with a disconnected router, road `100` is never
consumed, the remaining set after 5 rounds is non-empty, and `sortRoads`
fails; and on the single-road input, one round already empties the
remaining set, so rounds 2-5 change nothing. -/
theorem C6_sortRoads_error_iff_witness :
    ((fullRounds exRouterNone 5 ⟨[0], [100]⟩).remaining ≠ [] ∧
      sortRoads exRouterNone [0, 100] = none) ∧
    ((1 : Nat) ≤ 1 ∧ (1 : Nat) ≤ 5 ∧
      (sortRoadsLoop exRouterNone 1 ⟨[0], []⟩).remaining = [] ∧
      sortRoadsLoop exRouterNone 5 ⟨[0], []⟩ = sortRoadsLoop exRouterNone 1 ⟨[0], []⟩) :=
  ⟨⟨by decide, (C6_sortRoads_error_iff exRouterNone 0 [100]).1.mpr (by decide)⟩,
   ⟨by decide, by decide, by decide,
    (C6_sortRoads_error_iff exRouterNone 0 []).2 1 (by decide) (by decide) (by decide)⟩⟩

theorem getLastD_irrel : ∀ (l : List Nat), l ≠ [] → ∀ d₁ d₂ : Nat, l.getLastD d₁ = l.getLastD d₂
  | [], h, _, _ => absurd rfl h
  | [_], _, _, _ => rfl
  | a :: b :: t, _, d₁, d₂ => by
    simp only [List.getLastD_cons, List.getLastD_eq_getLast?]
    cases h : (b :: t).getLast? with
    | none => exact absurd (List.getLast?_eq_none_iff.mp h) (by simp)
    | some v => rfl

theorem getLastD_cons_of_ne_nil (a d : Nat) (l : List Nat) (h : l ≠ []) :
    (a :: l).getLastD d = l.getLastD d := by
  rw [List.getLastD_cons]
  exact getLastD_irrel l h a d

theorem getLastD_append_singleton : ∀ (l : List Nat) (d nl : Nat),
    (l ++ [nl]).getLastD d = nl
  | [], _, _ => rfl
  | a :: t, d, nl => by
    rw [List.cons_append, List.getLastD_cons, getLastD_append_singleton t a nl]

theorem headD_reverse (l : List Nat) (d : Nat) : l.reverse.headD d = l.getLastD d := by
  rw [List.headD_eq_head?_getD, List.head?_reverse, List.getLastD_eq_getLast?]

theorem getLastD_drop : ∀ (j : Nat) (l : List Nat) (d : Nat), l.drop j ≠ [] →
    (l.drop j).getLastD d = l.getLastD d
  | 0, _, _, _ => rfl
  | j + 1, [], _, h => absurd rfl h
  | j + 1, a :: t, d, h => by
    rw [List.drop_succ_cons] at h ⊢
    have ht : t ≠ [] := by
      intro hc; rw [hc] at h; exact h (List.drop_nil)
    rw [getLastD_drop j t d h, getLastD_cons_of_ne_nil a d t ht]

theorem chain'_append_last {R : Nat → Nat → Prop} :
    ∀ (l : List Nat) (nl : Nat), l ≠ [] → List.Chain' R l → R (l.getLastD 0) nl →
      List.Chain' R (l ++ [nl])
  | [], _, hne, _, _ => absurd rfl hne
  | [a], nl, _, _, hR => List.chain'_cons.mpr ⟨hR, List.chain'_singleton nl⟩
  | a :: b :: t, nl, _, hl, hR => by
    rw [List.cons_append]
    refine List.chain'_cons.mpr ⟨(List.chain'_cons.mp hl).1, ?_⟩
    exact chain'_append_last (b :: t) nl (by simp) (List.chain'_cons.mp hl).2
      (by rwa [getLastD_cons_of_ne_nil a 0 (b :: t) (by simp)] at hR)

theorem prependStep_inv (r : Router) (roads : List Nat) (seed : Nat) (st : SRState)
    (Hcoh : ∀ a b, r.prevRoad a = some b → r.nextRoad b = some a)
    (h : SRInv r roads seed st) :
    SRInv r roads seed (prependStep r st (st.sorted.headD 0)) ∧
    (prependStep r st (st.sorted.headD 0)).sorted.getLastD 0 = st.sorted.getLastD 0 := by
  obtain ⟨s, rem⟩ := st
  obtain ⟨hne, hseed, hchain, hcov⟩ := h
  dsimp only at hne hseed hchain hcov ⊢
  cases s with
  | nil => exact absurd rfl hne
  | cons a as =>
    unfold prependStep
    dsimp only
    cases hp : r.prevRoad ((a :: as).headD 0) with
    | none => exact ⟨⟨hne, hseed, hchain, hcov⟩, rfl⟩
    | some nf =>
      have hpa : r.prevRoad a = some nf := hp
      refine ⟨⟨by simp, List.mem_cons_of_mem _ hseed, ?_, ?_⟩, ?_⟩
      · exact List.chain'_cons.mpr ⟨Hcoh a nf hpa, hchain⟩
      · intro x hx
        rcases hcov x hx with hxs | hxr
        · exact Or.inl (List.mem_cons_of_mem _ hxs)
        · by_cases hxeq : x = nf
          · exact Or.inl (hxeq ▸ List.mem_cons_self _ _)
          · exact Or.inr ((List.mem_erase_of_ne hxeq).mpr hxr)
      · exact getLastD_cons_of_ne_nil nf 0 (a :: as) (by simp)

theorem appendStep_inv (r : Router) (roads : List Nat) (seed : Nat) (st : SRState)
    (ba : Nat) (hba : ba = st.sorted.getLastD 0) (h : SRInv r roads seed st) :
    SRInv r roads seed (appendStep r st ba) := by
  obtain ⟨s, rem⟩ := st
  obtain ⟨hne, hseed, hchain, hcov⟩ := h
  dsimp only at hne hseed hchain hcov hba ⊢
  unfold appendStep
  dsimp only
  cases hn : r.nextRoad ba with
  | none => exact ⟨hne, hseed, hchain, hcov⟩
  | some nl =>
    refine ⟨by simp, List.mem_append_left _ hseed, ?_, ?_⟩
    · exact chain'_append_last s nl hne hchain (by rw [← hba]; exact hn)
    · intro x hx
      rcases hcov x hx with hxs | hxr
      · exact Or.inl (List.mem_append_left _ hxs)
      · by_cases hxeq : x = nl
        · exact Or.inl (hxeq ▸ List.mem_append_right _ (List.mem_singleton.mpr rfl))
        · exact Or.inr ((List.mem_erase_of_ne hxeq).mpr hxr)

theorem expandRound_inv (r : Router) (roads : List Nat) (seed : Nat) (st : SRState)
    (Hcoh : ∀ a b, r.prevRoad a = some b → r.nextRoad b = some a)
    (h : SRInv r roads seed st) : SRInv r roads seed (expandRound r st) := by
  obtain ⟨h1, hlast⟩ := prependStep_inv r roads seed st Hcoh h
  exact appendStep_inv r roads seed _ _ hlast.symm h1

theorem sortRoadsLoop_inv (r : Router) (roads : List Nat) (seed : Nat) (k : Nat)
    (st : SRState)
    (Hcoh : ∀ a b, r.prevRoad a = some b → r.nextRoad b = some a)
    (h : SRInv r roads seed st) : SRInv r roads seed (sortRoadsLoop r k st) := by
  induction k generalizing st with
  | zero => exact h
  | succ k ih =>
    rw [sortRoadsLoop_succ]
    by_cases he : (expandRound r st).remaining = []
    · rw [if_pos he]
      exact expandRound_inv r roads seed st Hcoh h
    · rw [if_neg he]
      exact ih _ (expandRound_inv r roads seed st Hcoh h)

theorem trimFront_mem (roads : List Nat) :
    ∀ (k : Nat) (l : List Nat) (x : Nat), x ∈ roads → x ∈ l → x ∈ trimFront roads k l := by
  intro k
  induction k with
  | zero => intro l x _ hl; exact hl
  | succ k ih =>
    intro l x hx hl
    cases l with
    | nil => cases hl
    | cons a as =>
      unfold trimFront
      by_cases ha : a ∈ roads
      · simpa [ha] using hl
      · simp only [ha, if_false]
        rcases List.mem_cons.mp hl with rfl | h
        · exact absurd hx ha
        · exact ih as x hx h

theorem trimFront_drop (roads : List Nat) :
    ∀ (k : Nat) (l : List Nat), ∃ j, trimFront roads k l = l.drop j := by
  intro k
  induction k with
  | zero => intro l; exact ⟨0, rfl⟩
  | succ k ih =>
    intro l
    cases l with
    | nil => exact ⟨0, rfl⟩
    | cons a as =>
      unfold trimFront
      by_cases ha : a ∈ roads
      · exact ⟨0, by simp [ha]⟩
      · obtain ⟨j, hj⟩ := ih as
        exact ⟨j + 1, by simp [ha, hj]⟩

theorem trimFront_headD_mem (roads : List Nat) :
    ∀ (k : Nat) (l : List Nat), l.length ≤ k → trimFront roads k l ≠ [] →
      (trimFront roads k l).headD 0 ∈ roads := by
  intro k
  induction k with
  | zero =>
    intro l hlen hne
    have : l = [] := List.length_eq_zero.mp (Nat.le_zero.mp hlen)
    subst this
    exact absurd rfl hne
  | succ k ih =>
    intro l hlen hne
    cases l with
    | nil => exact absurd rfl hne
    | cons a as =>
      unfold trimFront at hne ⊢
      by_cases ha : a ∈ roads
      · simp [ha]
      · simp only [ha, if_false] at hne ⊢
        exact ih as (by simpa using Nat.succ_le_succ_iff.mp hlen) hne

theorem nodup_of_chain'_pos (r : Router) (pos : Nat → Int)
    (Hpos : ∀ a b, r.nextRoad a = some b → pos b = pos a + 1) (l : List Nat)
    (h : List.Chain' (fun a b => r.nextRoad a = some b) l) : l.Nodup := by
  have h2 : List.Chain' (fun a b : Nat => pos a < pos b) l :=
    h.imp (fun a b hab => by rw [Hpos a b hab]; omega)
  haveI : IsTrans Nat (fun a b : Nat => pos a < pos b) := ⟨fun a b c => lt_trans⟩
  haveI : IsIrrefl Nat (fun a b : Nat => pos a < pos b) := ⟨fun a => lt_irrefl _⟩
  exact (List.chain'_iff_pairwise.mp h2).nodup

/-- C3: whenever `sortRoads` succeeds on a set of roads that the router
orders consistently (successor advances an abstract position by one and
is the inverse of predecessor), the returned chain contains every input
road exactly once, consecutive elements are linked by the router's
successor, and both endpoints of the chain belong to the input set. -/
theorem C3_sortRoads_chain (r : Router) (pos : Nat → Int) (roads out : List Nat)
    (Hpos : ∀ a b, r.nextRoad a = some b → pos b = pos a + 1)
    (Hcoh : ∀ a b, r.prevRoad a = some b → r.nextRoad b = some a)
    (hout : sortRoads r roads = some out) :
    (∀ x ∈ roads, out.count x = 1) ∧
    List.Chain' (fun a b => r.nextRoad a = some b) out ∧
    out ≠ [] ∧ out.headD 0 ∈ roads ∧ out.getLastD 0 ∈ roads := by
  cases roads with
  | nil => exact absurd hout (by simp [sortRoads])
  | cons seed rest =>
    have hdef : sortRoads r (seed :: rest) =
        (if (sortRoadsLoop r 5 ⟨[seed], rest⟩).remaining = [] then
          some (trimBack (seed :: rest) (trimFront (seed :: rest)
            (sortRoadsLoop r 5 ⟨[seed], rest⟩).sorted.length
            (sortRoadsLoop r 5 ⟨[seed], rest⟩).sorted))
         else none) := rfl
    rw [hdef] at hout
    by_cases hrem : (sortRoadsLoop r 5 ⟨[seed], rest⟩).remaining = []
    · rw [if_pos hrem, Option.some_inj] at hout
      set st := sortRoadsLoop r 5 ⟨[seed], rest⟩ with hst
      have hinv : SRInv r (seed :: rest) seed st := by
        apply sortRoadsLoop_inv r (seed :: rest) seed 5 _ Hcoh
        refine ⟨by simp, by simp, List.chain'_singleton seed, ?_⟩
        intro x hx
        rcases List.mem_cons.mp hx with rfl | hxr
        · exact Or.inl (by simp)
        · exact Or.inr hxr
      obtain ⟨hne, hseed, hchain, hcov⟩ := hinv
      have hcov' : ∀ x ∈ seed :: rest, x ∈ st.sorted := by
        intro x hx
        rcases hcov x hx with hxs | hxr
        · exact hxs
        · rw [hrem] at hxr; cases hxr
      -- Properties of the front-trimmed list.
      set l' := trimFront (seed :: rest) st.sorted.length st.sorted with hl'
      have hl'mem : ∀ x ∈ seed :: rest, x ∈ l' := fun x hx =>
        trimFront_mem (seed :: rest) _ _ x hx (hcov' x hx)
      have hl'ne : l' ≠ [] := fun hc => by
        have := hl'mem seed (by simp)
        rw [hc] at this; cases this
      obtain ⟨j₁, hj₁⟩ := trimFront_drop (seed :: rest) st.sorted.length st.sorted
      have hl'chain : List.Chain' (fun a b => r.nextRoad a = some b) l' := by
        rw [hl', hj₁]
        exact hchain.suffix (List.drop_suffix _ _)
      have hl'head : l'.headD 0 ∈ seed :: rest :=
        trimFront_headD_mem (seed :: rest) _ _ (le_refl _) hl'ne
      -- Properties of the back-trimmed (final) list.
      have houtrev : out.reverse = trimFront (seed :: rest) l'.reverse.length l'.reverse := by
        rw [← hout]; unfold trimBack; rw [List.reverse_reverse]
      have houtmem : ∀ x ∈ seed :: rest, x ∈ out := by
        intro x hx
        rw [← List.mem_reverse, houtrev]
        exact trimFront_mem _ _ _ x hx (List.mem_reverse.mpr (hl'mem x hx))
      have houtne : out ≠ [] := fun hc => by
        have := houtmem seed (by simp)
        rw [hc] at this; cases this
      have houtrevne : out.reverse ≠ [] := by
        intro hc; exact houtne (by simpa using congrArg List.reverse hc)
      obtain ⟨j₂, hj₂⟩ := trimFront_drop (seed :: rest) l'.reverse.length l'.reverse
      have houtchain : List.Chain' (fun a b => r.nextRoad a = some b) out := by
        have h1 : List.Chain' (flip fun a b => r.nextRoad a = some b) l'.reverse :=
          List.chain'_reverse.mpr hl'chain
        have h2 : List.Chain' (flip fun a b => r.nextRoad a = some b) out.reverse := by
          rw [houtrev, hj₂]
          exact h1.suffix (List.drop_suffix _ _)
        have h3 : List.Chain' (fun a b => r.nextRoad a = some b) out.reverse.reverse :=
          List.chain'_reverse.mpr h2
        rwa [List.reverse_reverse] at h3
      have houtlast : out.getLastD 0 ∈ seed :: rest := by
        rw [← headD_reverse out 0, houtrev]
        exact trimFront_headD_mem _ _ _ (le_refl _) (by rwa [← houtrev])
      have houthead : out.headD 0 ∈ seed :: rest := by
        have h1 : out.headD 0 = out.reverse.getLastD 0 := by
          have := headD_reverse out.reverse 0
          rwa [List.reverse_reverse] at this
        have h2 : out.reverse.getLastD 0 = l'.reverse.getLastD 0 := by
          rw [houtrev, hj₂]
          exact getLastD_drop j₂ l'.reverse 0 (by rw [← hj₂, ← houtrev]; exact houtrevne)
        have h3 : l'.reverse.getLastD 0 = l'.headD 0 := by
          have := headD_reverse l'.reverse 0
          rw [List.reverse_reverse] at this
          exact this.symm
        rw [h1, h2, h3]
        exact hl'head
      have houtnodup : out.Nodup := nodup_of_chain'_pos r pos Hpos out houtchain
      exact ⟨fun x hx => List.count_eq_one_of_mem houtnodup (houtmem x hx),
        houtchain, houtne, houthead, houtlast⟩
    · rw [if_neg hrem] at hout
      cases hout

/-- Witness for C3: on the input set `{6, 5}` with the 5 → 6 → 7 router,
`sortRoads` returns `[5, 6]` (the filler road 7 is trimmed), and the
returned chain has all the claimed properties. -/
theorem C3_sortRoads_chain_witness :
    (∀ a b, exRouterChain.nextRoad a = some b →
      ((fun n : Nat => (n : Int)) b) = ((fun n : Nat => (n : Int)) a) + 1) ∧
    (∀ a b, exRouterChain.prevRoad a = some b → exRouterChain.nextRoad b = some a) ∧
    sortRoads exRouterChain [6, 5] = some [5, 6] ∧
    ((∀ x ∈ [6, 5], (([5, 6] : List Nat).count x) = 1) ∧
      List.Chain' (fun a b => exRouterChain.nextRoad a = some b) [5, 6] ∧
      ([5, 6] : List Nat) ≠ [] ∧
      (([5, 6] : List Nat).headD 0) ∈ ([6, 5] : List Nat) ∧
      (([5, 6] : List Nat).getLastD 0) ∈ ([6, 5] : List Nat)) := by
  have h1 : ∀ a b, exRouterChain.nextRoad a = some b →
      ((fun n : Nat => (n : Int)) b) = ((fun n : Nat => (n : Int)) a) + 1 := by
    intro a b h
    unfold exRouterChain at h
    dsimp only at h ⊢
    by_cases ha5 : a = 5
    · subst ha5
      have h' : (some 6 : Option Nat) = some b := h
      cases h'; decide
    · by_cases ha6 : a = 6
      · subst ha6
        have h' : (some 7 : Option Nat) = some b := h
        cases h'; decide
      · simp [ha5, ha6] at h
  have h2 : ∀ a b, exRouterChain.prevRoad a = some b →
      exRouterChain.nextRoad b = some a := by
    intro a b h
    unfold exRouterChain at h ⊢
    dsimp only at h ⊢
    by_cases ha6 : a = 6
    · subst ha6
      have h' : (some 5 : Option Nat) = some b := h
      cases h'; rfl
    · by_cases ha7 : a = 7
      · subst ha7
        have h' : (some 6 : Option Nat) = some b := h
        cases h'; rfl
      · simp [ha6, ha7] at h
  have h3 : sortRoads exRouterChain [6, 5] = some [5, 6] := by decide
  exact ⟨h1, h2, h3,
    C3_sortRoads_chain exRouterChain (fun n : Nat => (n : Int)) [6, 5] [5, 6] h1 h2 h3⟩

/-- Witness for C7 at concrete waypoints with lane ids `1`, `-1` and `0`. -/
theorem C7_waypointToRoadStartDistance_spec_witness :
    ((1 : Int) > 0 ∧
      waypointToRoadStartDistance exLSEnv ⟨3, 1, 4⟩ = some (exLSEnv.roadLength 3 - 4)) ∧
    ((-1 : Int) < 0 ∧
      waypointToRoadStartDistance exLSEnv ⟨3, -1, 4⟩ = some 4) ∧
    ((0 : Int) = 0 ∧
      waypointToRoadStartDistance exLSEnv ⟨3, 0, 4⟩ = none) :=
  ⟨⟨by decide, (C7_waypointToRoadStartDistance_spec exLSEnv ⟨3, 1, 4⟩).1 (by decide)⟩,
   ⟨by decide, (C7_waypointToRoadStartDistance_spec exLSEnv ⟨3, -1, 4⟩).2.1 (by decide)⟩,
   ⟨by decide, (C7_waypointToRoadStartDistance_spec exLSEnv ⟨3, 0, 4⟩).2.2 (by decide)⟩⟩

theorem dropLast_cons_of_ne_nil (a : Nat) (l : List Nat) (h : l ≠ []) :
    (a :: l).dropLast = a :: l.dropLast := by
  cases l with
  | nil => exact absurd rfl h
  | cons b t => rfl

theorem walk_ok_spec (front : Nat → Option Nat) (hd : Nat) :
    ∀ (fuel cur : Nat) (ns : List Nat), walk front hd fuel cur = .ok ns →
      ns ≠ [] ∧ ns.headD 0 = cur ∧ ns.getLastD 0 = hd ∧
      List.Chain' (fun a b => front a = some b) ns ∧ hd ∉ ns.dropLast := by
  intro fuel
  induction fuel with
  | zero => intro cur ns h; cases h
  | succ fuel ih =>
    intro cur ns h
    unfold walk at h
    by_cases hc : cur = hd
    · rw [if_pos hc] at h
      cases h
      refine ⟨by simp, hc.symm, rfl, List.chain'_singleton hd, by simp⟩
    · rw [if_neg hc] at h
      cases hf : front cur with
      | none => rw [hf] at h; cases h
      | some nxt =>
        rw [hf] at h
        dsimp only at h
        cases hw : walk front hd fuel nxt with
        | ok ns' =>
          rw [hw] at h
          cases h
          obtain ⟨hne', hhead', hlast', hchain', hnotin'⟩ := ih nxt ns' hw
          refine ⟨by simp, rfl, ?_, ?_, ?_⟩
          · rw [getLastD_cons_of_ne_nil cur 0 ns' hne']
            exact hlast'
          · refine List.chain'_cons'.mpr ⟨?_, hchain'⟩
            intro y hy
            have : ns'.headD 0 = y := by
              rw [List.headD_eq_head?_getD, hy]
              rfl
            rw [← this, hhead']
            exact hf
          · rw [dropLast_cons_of_ne_nil cur ns' hne']
            intro hmem
            rcases List.mem_cons.mp hmem with heq | hmem'
            · exact hc heq.symm
            · exact hnotin' hmem'
        | disconnected => rw [hw] at h; cases h
        | noFuel => rw [hw] at h; cases h

theorem markNodes_true_iff (id : Nat) :
    ∀ (ns : List Nat) (occ : Nat → Option Nat),
      (markNodes id occ ns).2 = true ↔ ns.Nodup ∧ ∀ n ∈ ns, occ n = none := by
  intro ns
  induction ns with
  | nil => intro occ; simp [markNodes]
  | cons n ns ih =>
    intro occ
    unfold markNodes
    cases ho : occ n with
    | some v =>
      simp only []
      constructor
      · intro h; cases h
      · intro ⟨_, hall⟩
        have := hall n (by simp)
        rw [ho] at this
        cases this
    | none =>
      simp only []
      rw [ih]
      constructor
      · intro ⟨hnd, hall⟩
        refine ⟨List.nodup_cons.mpr ⟨?_, hnd⟩, ?_⟩
        · intro hmem
          have := hall n hmem
          simp at this
        · intro m hm
          rcases List.mem_cons.mp hm with rfl | hm'
          · exact ho
          · have := hall m hm'
            by_cases hmn : m = n
            · subst hmn; exact ho
            · simpa [hmn] using this
      · intro ⟨hnd, hall⟩
        obtain ⟨hnotin, hnd'⟩ := List.nodup_cons.mp hnd
        refine ⟨hnd', ?_⟩
        intro m hm
        have hmn : m ≠ n := fun hc => hnotin (hc ▸ hm)
        simp only [hmn, if_false]
        exact hall m (List.mem_cons_of_mem _ hm)

theorem markNodes_occ_of_true (id : Nat) :
    ∀ (ns : List Nat) (occ : Nat → Option Nat), (markNodes id occ ns).2 = true →
      ∀ m, (markNodes id occ ns).1 m = if m ∈ ns then some id else occ m := by
  intro ns
  induction ns with
  | nil => intro occ _ m; simp [markNodes]
  | cons n ns ih =>
    intro occ hok m
    unfold markNodes at hok ⊢
    cases ho : occ n with
    | some v => rw [ho] at hok; cases hok
    | none =>
      rw [ho] at hok
      rw [ih _ hok m]
      by_cases hm : m ∈ ns
      · simp [hm]
      · by_cases hmn : m = n
        · subst hmn; simp [hm]
        · simp [hm, hmn]

theorem registerVehiclesAux_cons_cases (env : RegEnv) (fuel : Nat) (res : ℚ)
    (st : RegState) (v : VehicleTuple) (vs : List VehicleTuple) :
    (∃ ns occ', resolveNodes env fuel res v = some ns ∧
       markNodes v.id st.occ ns = (occ', true) ∧
       registerVehiclesAux env fuel res st (v :: vs) =
         registerVehiclesAux env fuel res ⟨occ', st.table ++ [(v.id, ns)]⟩ vs) ∨
    (∃ ns occ', resolveNodes env fuel res v = some ns ∧
       markNodes v.id st.occ ns = (occ', false) ∧
       registerVehiclesAux env fuel res st (v :: vs) =
         (⟨occ', st.table⟩, some .collision)) ∨
    (resolveNodes env fuel res v = none ∧ ∃ e, e ≠ RegErr.collision ∧
       registerVehiclesAux env fuel res st (v :: vs) = (st, some e)) := by
  have hstep : registerVehiclesAux env fuel res st (v :: vs) =
      match env.closestNode (env.headWp v.transform v.bbox) (regTolerance res),
            env.closestNode (env.rearWp v.transform v.bbox) (regTolerance res) with
      | some hn, some rn =>
        match walk env.front hn fuel rn with
        | .ok ns =>
          match markNodes v.id st.occ ns with
          | (occ', true) =>
            registerVehiclesAux env fuel res ⟨occ', st.table ++ [(v.id, ns)]⟩ vs
          | (occ', false) => (⟨occ', st.table⟩, some .collision)
        | .disconnected => (st, some .disconnected)
        | .noFuel => (st, some .noFuel)
      | _, _ => (st, some .offLattice) := rfl
  cases hh : env.closestNode (env.headWp v.transform v.bbox) (regTolerance res) with
  | none =>
    refine Or.inr (Or.inr ⟨?_, RegErr.offLattice, by simp, ?_⟩)
    · unfold resolveNodes
      rw [hh]
    · cases hr : env.closestNode (env.rearWp v.transform v.bbox) (regTolerance res) with
      | none => rw [hstep, hh, hr]
      | some rn => rw [hstep, hh, hr]
  | some hn =>
    cases hr : env.closestNode (env.rearWp v.transform v.bbox) (regTolerance res) with
    | none =>
      refine Or.inr (Or.inr ⟨?_, RegErr.offLattice, by simp, ?_⟩)
      · unfold resolveNodes
        rw [hh, hr]
      · rw [hstep, hh, hr]
    | some rn =>
      cases hw : walk env.front hn fuel rn with
      | ok ns =>
        rcases hm : markNodes v.id st.occ ns with ⟨occ', b⟩
        cases b with
        | true =>
          refine Or.inl ⟨ns, occ', ?_, hm, ?_⟩
          · unfold resolveNodes
            rw [hh, hr]
            dsimp only
            rw [hw]
          · rw [hstep, hh, hr]
            dsimp only
            rw [hw]
            dsimp only
            rw [hm]
        | false =>
          refine Or.inr (Or.inl ⟨ns, occ', ?_, hm, ?_⟩)
          · unfold resolveNodes
            rw [hh, hr]
            dsimp only
            rw [hw]
          · rw [hstep, hh, hr]
            dsimp only
            rw [hw]
            dsimp only
            rw [hm]
      | disconnected =>
        refine Or.inr (Or.inr ⟨?_, RegErr.disconnected, by simp, ?_⟩)
        · unfold resolveNodes
          rw [hh, hr]
          dsimp only
          rw [hw]
        · rw [hstep, hh, hr]
          dsimp only
          rw [hw]
      | noFuel =>
        refine Or.inr (Or.inr ⟨?_, RegErr.noFuel, by simp, ?_⟩)
        · unfold resolveNodes
          rw [hh, hr]
          dsimp only
          rw [hw]
        · rw [hstep, hh, hr]
          dsimp only
          rw [hw]

theorem registerVehiclesAux_ok_spec (env : RegEnv) (fuel : Nat) (res : ℚ) :
    ∀ (vs : List VehicleTuple) (st : RegState),
      (registerVehiclesAux env fuel res st vs).2 = none →
      (registerVehiclesAux env fuel res st vs).1.table =
        st.table ++ vs.map (fun v => (v.id, nodesOfD env fuel res v)) ∧
      ∀ v ∈ vs, resolveNodes env fuel res v = some (nodesOfD env fuel res v) := by
  intro vs
  induction vs with
  | nil =>
    intro st h
    exact ⟨by simp [registerVehiclesAux], by simp⟩
  | cons v vs ih =>
    intro st h
    rcases registerVehiclesAux_cons_cases env fuel res st v vs with
      ⟨ns, occ', hres, hm, heq⟩ | ⟨ns, occ', hres, hm, heq⟩ | ⟨hres, e, hne, heq⟩
    · rw [heq] at h ⊢
      obtain ⟨htab, hall⟩ := ih _ h
      have hns : nodesOfD env fuel res v = ns := by
        unfold nodesOfD
        rw [hres]
        rfl
      constructor
      · rw [htab]
        simp [hns]
      · intro u hu
        rcases List.mem_cons.mp hu with rfl | hu'
        · rw [hns]
          exact hres
        · exact hall u hu'
    · rw [heq] at h
      simp at h
    · rw [heq] at h
      simp at h

theorem registerVehiclesAux_ok_iff (env : RegEnv) (fuel : Nat) (res : ℚ) :
    ∀ (vs : List VehicleTuple) (st : RegState),
      (registerVehiclesAux env fuel res st vs).2 = none ↔
      ((∀ v ∈ vs, (resolveNodes env fuel res v).isSome ∧
          (nodesOfD env fuel res v).Nodup ∧
          ∀ n ∈ nodesOfD env fuel res v, st.occ n = none) ∧
        List.Pairwise
          (fun u w => ∀ n ∈ nodesOfD env fuel res u, n ∉ nodesOfD env fuel res w) vs) := by
  intro vs
  induction vs with
  | nil => intro st; simp [registerVehiclesAux]
  | cons v vs ih =>
    intro st
    rcases registerVehiclesAux_cons_cases env fuel res st v vs with
      ⟨ns, occ', hres, hm, heq⟩ | ⟨ns, occ', hres, hm, heq⟩ | ⟨hres, e, hne, heq⟩
    · have hns : nodesOfD env fuel res v = ns := by
        unfold nodesOfD
        rw [hres]
        rfl
      have hm2 : (markNodes v.id st.occ ns).2 = true := by rw [hm]
      have hoccf : ∀ m, occ' m = if m ∈ ns then some v.id else st.occ m := by
        intro m
        have := markNodes_occ_of_true v.id ns st.occ hm2 m
        rwa [hm] at this
      have hv := (markNodes_true_iff v.id ns st.occ).mp hm2
      rw [heq, ih]
      constructor
      · rintro ⟨hall, hpw⟩
        refine ⟨?_, ?_⟩
        · intro u hu
          rcases List.mem_cons.mp hu with rfl | hu'
          · exact ⟨by rw [hres]; rfl, hns ▸ hv.1, hns ▸ hv.2⟩
          · obtain ⟨hres_u, hnd_u, hocc_u⟩ := hall u hu'
            refine ⟨hres_u, hnd_u, ?_⟩
            intro n hn
            have h1 := hocc_u n hn
            dsimp only at h1
            rw [hoccf n] at h1
            by_cases hmem : n ∈ ns
            · rw [if_pos hmem] at h1
              cases h1
            · rwa [if_neg hmem] at h1
        · refine List.pairwise_cons.mpr ⟨?_, hpw⟩
          intro u hu n hn hnu
          obtain ⟨_, _, hocc_u⟩ := hall u hu
          have h1 := hocc_u n hnu
          dsimp only at h1
          rw [hns] at hn
          rw [hoccf n, if_pos hn] at h1
          cases h1
      · rintro ⟨hall, hpw⟩
        obtain ⟨hpv, hpw'⟩ := List.pairwise_cons.mp hpw
        refine ⟨?_, hpw'⟩
        intro u hu
        obtain ⟨hres_u, hnd_u, hocc_u⟩ := hall u (List.mem_cons_of_mem _ hu)
        refine ⟨hres_u, hnd_u, ?_⟩
        intro n hn
        have hnotin : n ∉ ns := by
          intro hc
          exact hpv u hu n (hns ▸ hc) hn
        show occ' n = none
        rw [hoccf n, if_neg hnotin]
        exact hocc_u n hn
    · have hns : nodesOfD env fuel res v = ns := by
        unfold nodesOfD
        rw [hres]
        rfl
      rw [heq]
      constructor
      · intro h
        simp at h
      · rintro ⟨hall, _⟩
        obtain ⟨_, hnd, hoccv⟩ := hall v (by simp)
        rw [hns] at hnd hoccv
        have := (markNodes_true_iff v.id ns st.occ).mpr ⟨hnd, hoccv⟩
        rw [hm] at this
        cases this
    · rw [heq]
      constructor
      · intro h
        simp at h
      · rintro ⟨hall, _⟩
        obtain ⟨hsome, _, _⟩ := hall v (by simp)
        rw [hres] at hsome
        cases hsome

theorem registerVehiclesAux_ok_occ (env : RegEnv) (fuel : Nat) (res : ℚ) :
    ∀ (vs : List VehicleTuple) (st : RegState),
      (registerVehiclesAux env fuel res st vs).2 = none →
      ∀ m i, (registerVehiclesAux env fuel res st vs).1.occ m = some i →
        st.occ m = some i ∨ ∃ v ∈ vs, v.id = i ∧ m ∈ nodesOfD env fuel res v := by
  intro vs
  induction vs with
  | nil =>
    intro st _ m i h
    exact Or.inl h
  | cons v vs ih =>
    intro st h m i hm'
    rcases registerVehiclesAux_cons_cases env fuel res st v vs with
      ⟨ns, occ', hres, hmk, heq⟩ | ⟨ns, occ', hres, hmk, heq⟩ | ⟨hres, e, hne, heq⟩
    · have hns : nodesOfD env fuel res v = ns := by
        unfold nodesOfD
        rw [hres]
        rfl
      have hm2 : (markNodes v.id st.occ ns).2 = true := by rw [hmk]
      have hoccf : ∀ m, occ' m = if m ∈ ns then some v.id else st.occ m := by
        intro m
        have := markNodes_occ_of_true v.id ns st.occ hm2 m
        rwa [hmk] at this
      rw [heq] at h hm'
      rcases ih _ h m i hm' with h1 | ⟨u, hu, hui, hmem⟩
      · dsimp only at h1
        rw [hoccf m] at h1
        by_cases hmem : m ∈ ns
        · rw [if_pos hmem] at h1
          cases h1
          exact Or.inr ⟨v, by simp, rfl, hns ▸ hmem⟩
        · rw [if_neg hmem] at h1
          exact Or.inl h1
      · exact Or.inr ⟨u, List.mem_cons_of_mem _ hu, hui, hmem⟩
    · rw [heq] at h
      simp at h
    · rw [heq] at h
      simp at h

theorem registerVehiclesAux_fail_table (env : RegEnv) (fuel : Nat) (res : ℚ) :
    ∀ (vs : List VehicleTuple) (st : RegState) (e : RegErr),
      (registerVehiclesAux env fuel res st vs).2 = some e →
      ∃ pre v post, vs = pre ++ v :: post ∧
        (registerVehiclesAux env fuel res st vs).1.table =
          st.table ++ pre.map (fun u => (u.id, nodesOfD env fuel res u)) := by
  intro vs
  induction vs with
  | nil =>
    intro st e h
    simp [registerVehiclesAux] at h
  | cons v vs ih =>
    intro st e h
    rcases registerVehiclesAux_cons_cases env fuel res st v vs with
      ⟨ns, occ', hres, hmk, heq⟩ | ⟨ns, occ', hres, hmk, heq⟩ | ⟨hres, e', hne, heq⟩
    · have hns : nodesOfD env fuel res v = ns := by
        unfold nodesOfD
        rw [hres]
        rfl
      rw [heq] at h ⊢
      obtain ⟨pre', v', post', hsplit, htab⟩ := ih _ _ h
      refine ⟨v :: pre', v', post', by rw [hsplit]; rfl, ?_⟩
      rw [htab]
      simp [hns]
    · rw [heq]
      exact ⟨[], v, vs, rfl, by simp⟩
    · rw [heq]
      exact ⟨[], v, vs, rfl, by simp⟩

/-- C2: after a successful `registerVehicles` pass on a fresh (all
unoccupied) lattice, the node sequences recorded for distinct vehicle ids
are pairwise disjoint, and every occupied node's occupant id matches a
table entry containing that node. -/
theorem C2_no_double_occupancy (env : RegEnv) (fuel : Nat) (res : ℚ)
    (vs : List VehicleTuple)
    (h : (registerVehicles env fuel res emptyOcc vs).2 = none) :
    (∀ i1 ns1 i2 ns2,
      (i1, ns1) ∈ (registerVehicles env fuel res emptyOcc vs).1.table →
      (i2, ns2) ∈ (registerVehicles env fuel res emptyOcc vs).1.table →
      i1 ≠ i2 → ∀ n, n ∈ ns1 → n ∉ ns2) ∧
    (∀ n i, (registerVehicles env fuel res emptyOcc vs).1.occ n = some i →
      ∃ ns, (i, ns) ∈ (registerVehicles env fuel res emptyOcc vs).1.table ∧ n ∈ ns) := by
  unfold registerVehicles at h ⊢
  have hok : (registerVehiclesAux env fuel res ⟨emptyOcc, []⟩ vs).2 = none := h
  obtain ⟨htab, _⟩ := registerVehiclesAux_ok_spec env fuel res vs ⟨emptyOcc, []⟩ hok
  have hpw := ((registerVehiclesAux_ok_iff env fuel res vs ⟨emptyOcc, []⟩).mp hok).2
  have hsym : Symmetric
      (fun u w => ∀ n ∈ nodesOfD env fuel res u, n ∉ nodesOfD env fuel res w) := by
    intro u w hR n hnw hnu
    exact hR n hnu hnw
  constructor
  · intro i1 ns1 i2 ns2 h1 h2 hne n hn1 hn2
    rw [htab] at h1 h2
    simp only [List.nil_append, List.mem_map] at h1 h2
    obtain ⟨v1, hv1mem, hv1⟩ := h1
    obtain ⟨v2, hv2mem, hv2⟩ := h2
    have hid1 : v1.id = i1 := congrArg Prod.fst hv1
    have hns1 : nodesOfD env fuel res v1 = ns1 := congrArg Prod.snd hv1
    have hid2 : v2.id = i2 := congrArg Prod.fst hv2
    have hns2 : nodesOfD env fuel res v2 = ns2 := congrArg Prod.snd hv2
    have hvne : v1 ≠ v2 := by
      intro hc
      exact hne (hid1 ▸ hid2 ▸ congrArg VehicleTuple.id hc)
    exact hpw.forall hsym hv1mem hv2mem hvne n (hns1 ▸ hn1) (hns2 ▸ hn2)
  · intro n i hocc
    rcases registerVehiclesAux_ok_occ env fuel res vs ⟨emptyOcc, []⟩ hok n i hocc with
      h1 | ⟨v, hv, hvi, hvn⟩
    · cases h1
    · refine ⟨nodesOfD env fuel res v, ?_, hvn⟩
      rw [htab]
      simp only [List.nil_append, List.mem_map]
      exact ⟨v, hv, by rw [hvi]⟩

/-- Witness for C2: two non-overlapping vehicles register successfully
with disjoint node runs `[0,1]` and `[3,4]`. -/
theorem C2_no_double_occupancy_witness :
    (registerVehicles exRegEnv 10 1 emptyOcc [⟨1, 0, 0⟩, ⟨2, 3, 0⟩]).2 = none ∧
    ((∀ i1 ns1 i2 ns2,
      (i1, ns1) ∈ (registerVehicles exRegEnv 10 1 emptyOcc [⟨1, 0, 0⟩, ⟨2, 3, 0⟩]).1.table →
      (i2, ns2) ∈ (registerVehicles exRegEnv 10 1 emptyOcc [⟨1, 0, 0⟩, ⟨2, 3, 0⟩]).1.table →
      i1 ≠ i2 → ∀ n, n ∈ ns1 → n ∉ ns2) ∧
    (∀ n i, (registerVehicles exRegEnv 10 1 emptyOcc [⟨1, 0, 0⟩, ⟨2, 3, 0⟩]).1.occ n = some i →
      ∃ ns, (i, ns) ∈ (registerVehicles exRegEnv 10 1 emptyOcc [⟨1, 0, 0⟩, ⟨2, 3, 0⟩]).1.table ∧
        n ∈ ns)) :=
  ⟨by decide, C2_no_double_occupancy exRegEnv 10 1 [⟨1, 0, 0⟩, ⟨2, 3, 0⟩] (by decide)⟩

/-- C5: every vehicle recorded by a successful `registerVehicles` pass has
a node sequence that starts at the node nearest its rear reference point,
follows forward-neighbor links, and ends exactly at the node nearest its
head reference point (which appears only at the end); and a missing
forward link before the head node makes registration fail with the
disconnected-nodes error. -/
theorem C5_occupied_sequence_contiguity (env : RegEnv) (fuel : Nat) (res : ℚ)
    (occ0 : Nat → Option Nat) (vs : List VehicleTuple) :
    ((registerVehicles env fuel res occ0 vs).2 = none →
      ∀ i ns, (i, ns) ∈ (registerVehicles env fuel res occ0 vs).1.table →
        ∃ v ∈ vs, v.id = i ∧
        ∃ rn hn,
          env.closestNode (env.rearWp v.transform v.bbox) (regTolerance res) = some rn ∧
          env.closestNode (env.headWp v.transform v.bbox) (regTolerance res) = some hn ∧
          ns ≠ [] ∧ ns.headD 0 = rn ∧ ns.getLastD 0 = hn ∧
          List.Chain' (fun a b => env.front a = some b) ns ∧ hn ∉ ns.dropLast) ∧
    (∀ (st : RegState) (v : VehicleTuple) (rest : List VehicleTuple) (rn hn : Nat),
      env.closestNode (env.rearWp v.transform v.bbox) (regTolerance res) = some rn →
      env.closestNode (env.headWp v.transform v.bbox) (regTolerance res) = some hn →
      walk env.front hn fuel rn = .disconnected →
      (registerVehiclesAux env fuel res st (v :: rest)).2 = some RegErr.disconnected) := by
  constructor
  · intro h i ns hmem
    unfold registerVehicles at h hmem
    obtain ⟨htab, _⟩ := registerVehiclesAux_ok_spec env fuel res vs ⟨occ0, []⟩ h
    rw [htab] at hmem
    simp only [List.nil_append, List.mem_map] at hmem
    obtain ⟨v, hvmem, hv⟩ := hmem
    have hid : v.id = i := congrArg Prod.fst hv
    have hns : nodesOfD env fuel res v = ns := congrArg Prod.snd hv
    obtain ⟨_, hall⟩ := registerVehiclesAux_ok_spec env fuel res vs ⟨occ0, []⟩ h
    have hres := hall v hvmem
    rw [hns] at hres
    refine ⟨v, hvmem, hid, ?_⟩
    unfold resolveNodes at hres
    cases hh : env.closestNode (env.headWp v.transform v.bbox) (regTolerance res) with
    | none => rw [hh] at hres; cases hres
    | some hn =>
      cases hr : env.closestNode (env.rearWp v.transform v.bbox) (regTolerance res) with
      | none => rw [hh, hr] at hres; cases hres
      | some rn =>
        rw [hh, hr] at hres
        dsimp only at hres
        cases hw : walk env.front hn fuel rn with
        | ok ns' =>
          rw [hw] at hres
          have hns' : ns' = ns := by
            simpa using hres
          obtain ⟨hne, hhd, hlast, hchain, hnotin⟩ := walk_ok_spec env.front hn fuel rn ns' hw
          subst hns'
          exact ⟨rn, hn, rfl, rfl, hne, hhd, hlast, hchain, hnotin⟩
        | disconnected => rw [hw] at hres; cases hres
        | noFuel => rw [hw] at hres; cases hres
  · intro st v rest rn hn hr hh hw
    have hstep : registerVehiclesAux env fuel res st (v :: rest) =
        match env.closestNode (env.headWp v.transform v.bbox) (regTolerance res),
              env.closestNode (env.rearWp v.transform v.bbox) (regTolerance res) with
        | some hn', some rn' =>
          match walk env.front hn' fuel rn' with
          | .ok ns =>
            match markNodes v.id st.occ ns with
            | (occ', true) =>
              registerVehiclesAux env fuel res ⟨occ', st.table ++ [(v.id, ns)]⟩ rest
            | (occ', false) => (⟨occ', st.table⟩, some .collision)
          | .disconnected => (st, some .disconnected)
          | .noFuel => (st, some .noFuel)
        | _, _ => (st, some .offLattice) := rfl
    rw [hstep, hh, hr]
    dsimp only
    rw [hw]

/-- Witness for C5: a registered vehicle's run `[0, 1]` goes rear node 0 →
head node 1 along forward links; and in the broken-lattice environment a
vehicle spanning nodes 0 → 3 fails with the disconnected error. -/
theorem C5_occupied_sequence_contiguity_witness :
    ((registerVehicles exRegEnv 10 1 emptyOcc [⟨1, 0, 0⟩]).2 = none ∧
      (1, [0, 1]) ∈ (registerVehicles exRegEnv 10 1 emptyOcc [⟨1, 0, 0⟩]).1.table ∧
      (∃ v ∈ [(⟨1, 0, 0⟩ : VehicleTuple)], v.id = 1 ∧
        ∃ rn hn,
          exRegEnv.closestNode (exRegEnv.rearWp v.transform v.bbox) (regTolerance 1) = some rn ∧
          exRegEnv.closestNode (exRegEnv.headWp v.transform v.bbox) (regTolerance 1) = some hn ∧
          ([0, 1] : List Nat) ≠ [] ∧ ([0, 1] : List Nat).headD 0 = rn ∧
          ([0, 1] : List Nat).getLastD 0 = hn ∧
          List.Chain' (fun a b => exRegEnv.front a = some b) [0, 1] ∧
          hn ∉ ([0, 1] : List Nat).dropLast)) ∧
    (exRegEnvDisc.closestNode (exRegEnvDisc.rearWp 0 0) (regTolerance 1) = some 0 ∧
      exRegEnvDisc.closestNode (exRegEnvDisc.headWp 0 0) (regTolerance 1) = some 3 ∧
      walk exRegEnvDisc.front 3 10 0 = .disconnected ∧
      (registerVehiclesAux exRegEnvDisc 10 1 ⟨emptyOcc, []⟩ [⟨7, 0, 0⟩]).2 =
        some RegErr.disconnected) :=
  ⟨⟨by decide, by decide,
    (C5_occupied_sequence_contiguity exRegEnv 10 1 emptyOcc [⟨1, 0, 0⟩]).1
      (by decide) 1 [0, 1] (by decide)⟩,
   ⟨by decide, by decide, by decide,
    (C5_occupied_sequence_contiguity exRegEnvDisc 10 1 emptyOcc [⟨7, 0, 0⟩]).2
      ⟨emptyOcc, []⟩ ⟨7, 0, 0⟩ [] 0 3 (by decide) (by decide) (by decide)⟩⟩

/-- C8: over any starting node occupancy, the success of a
`registerVehicles` pass and, on success, the recorded vehicle-to-nodes
table (up to permutation of its entries, i.e. as a mapping) are invariant
under permuting the input vehicle list. -/
theorem C8_order_invariance (env : RegEnv) (fuel : Nat) (res : ℚ)
    (occ0 : Nat → Option Nat) (vs1 vs2 : List VehicleTuple)
    (hperm : vs1.Perm vs2) :
    ((registerVehicles env fuel res occ0 vs1).2 = none ↔
      (registerVehicles env fuel res occ0 vs2).2 = none) ∧
    ((registerVehicles env fuel res occ0 vs1).2 = none →
      (registerVehicles env fuel res occ0 vs1).1.table.Perm
        (registerVehicles env fuel res occ0 vs2).1.table) := by
  unfold registerVehicles
  have hsym : ∀ {x y : VehicleTuple},
      (∀ n ∈ nodesOfD env fuel res x, n ∉ nodesOfD env fuel res y) →
      (∀ n ∈ nodesOfD env fuel res y, n ∉ nodesOfD env fuel res x) := by
    intro x y hR n hny hnx
    exact hR n hnx hny
  have hiff : (registerVehiclesAux env fuel res ⟨occ0, []⟩ vs1).2 = none ↔
      (registerVehiclesAux env fuel res ⟨occ0, []⟩ vs2).2 = none := by
    rw [registerVehiclesAux_ok_iff, registerVehiclesAux_ok_iff]
    constructor
    · rintro ⟨hall, hpw⟩
      exact ⟨fun v hv => hall v (hperm.mem_iff.mpr hv),
        (hperm.pairwise_iff hsym).mp hpw⟩
    · rintro ⟨hall, hpw⟩
      exact ⟨fun v hv => hall v (hperm.mem_iff.mp hv),
        (hperm.pairwise_iff hsym).mpr hpw⟩
  refine ⟨hiff, ?_⟩
  intro h1
  have h2 := hiff.mp h1
  obtain ⟨htab1, _⟩ := registerVehiclesAux_ok_spec env fuel res vs1 ⟨occ0, []⟩ h1
  obtain ⟨htab2, _⟩ := registerVehiclesAux_ok_spec env fuel res vs2 ⟨occ0, []⟩ h2
  rw [htab1, htab2]
  simp only [List.nil_append]
  exact hperm.map _

/-- Witness for C8: registering two vehicles in either order succeeds,
with tables that are permutations of each other. -/
theorem C8_order_invariance_witness :
    ([(⟨1, 0, 0⟩ : VehicleTuple), ⟨2, 3, 0⟩].Perm [⟨2, 3, 0⟩, ⟨1, 0, 0⟩]) ∧
    (((registerVehicles exRegEnv 10 1 emptyOcc [⟨1, 0, 0⟩, ⟨2, 3, 0⟩]).2 = none ↔
      (registerVehicles exRegEnv 10 1 emptyOcc [⟨2, 3, 0⟩, ⟨1, 0, 0⟩]).2 = none) ∧
    ((registerVehicles exRegEnv 10 1 emptyOcc [⟨1, 0, 0⟩, ⟨2, 3, 0⟩]).2 = none →
      (registerVehicles exRegEnv 10 1 emptyOcc [⟨1, 0, 0⟩, ⟨2, 3, 0⟩]).1.table.Perm
        (registerVehicles exRegEnv 10 1 emptyOcc [⟨2, 3, 0⟩, ⟨1, 0, 0⟩]).1.table)) :=
  have hp : ([(⟨1, 0, 0⟩ : VehicleTuple), ⟨2, 3, 0⟩].Perm [⟨2, 3, 0⟩, ⟨1, 0, 0⟩]) :=
    List.Perm.swap _ _ _
  ⟨hp, C8_order_invariance exRegEnv 10 1 emptyOcc _ _ hp⟩

/-- C1 counterexample: with two overlapping vehicles on a fresh lattice,
`registerVehicles` fails with the collision error, yet at the point of
failure the table still holds the first vehicle's entry (one entry, not
zero) and the first vehicle's nodes remain marked occupied. -/
theorem C1_counterexample :
    (registerVehicles exRegEnv 10 1 emptyOcc [⟨1, 0, 0⟩, ⟨2, 1, 0⟩]).2 =
      some RegErr.collision ∧
    (registerVehicles exRegEnv 10 1 emptyOcc [⟨1, 0, 0⟩, ⟨2, 1, 0⟩]).1.table =
      [(1, [0, 1])] ∧
    [(1, [0, 1])] ≠ ([] : List (Nat × List Nat)) ∧
    (registerVehicles exRegEnv 10 1 emptyOcc [⟨1, 0, 0⟩, ⟨2, 1, 0⟩]).1.occ 0 = some 1 :=
  ⟨by decide, by decide, by decide, by decide⟩

/-- C1 (amended): a failing pass leaves exactly the entries of the
vehicles fully registered before the failing one — in particular the
failing vehicle itself never appears in the table. -/
theorem C1_no_partial_entry_for_failing_vehicle (env : RegEnv) (fuel : Nat)
    (res : ℚ) (occ0 : Nat → Option Nat) (vs : List VehicleTuple) (e : RegErr)
    (hnd : (vs.map VehicleTuple.id).Nodup)
    (h : (registerVehicles env fuel res occ0 vs).2 = some e) :
    ∃ pre v post, vs = pre ++ v :: post ∧
      (registerVehicles env fuel res occ0 vs).1.table =
        pre.map (fun u => (u.id, nodesOfD env fuel res u)) ∧
      v.id ∉ ((registerVehicles env fuel res occ0 vs).1.table).map Prod.fst := by
  unfold registerVehicles at h ⊢
  obtain ⟨pre, v, post, hsplit, htab⟩ :=
    registerVehiclesAux_fail_table env fuel res vs ⟨occ0, []⟩ e h
  simp only [List.nil_append] at htab
  refine ⟨pre, v, post, hsplit, htab, ?_⟩
  rw [htab, List.map_map]
  have hids : (pre.map VehicleTuple.id ++ v.id :: post.map VehicleTuple.id).Nodup := by
    rw [hsplit] at hnd
    simpa using hnd
  have hdisj := List.disjoint_of_nodup_append hids
  intro hc
  have hc' : v.id ∈ pre.map VehicleTuple.id := by
    simpa using hc
  exact hdisj hc' (by simp)

/-- Witness for C1 (amended): in the two-vehicle collision scenario the
failing pass decomposes with `pre = [vehicle 1]`, and vehicle 2 (the
failing one) has no table entry. -/
theorem C1_no_partial_entry_for_failing_vehicle_witness :
    (([(⟨1, 0, 0⟩ : VehicleTuple), ⟨2, 1, 0⟩].map VehicleTuple.id).Nodup ∧
      (registerVehicles exRegEnv 10 1 emptyOcc [⟨1, 0, 0⟩, ⟨2, 1, 0⟩]).2 =
        some RegErr.collision) ∧
    (∃ pre v post, [(⟨1, 0, 0⟩ : VehicleTuple), ⟨2, 1, 0⟩] = pre ++ v :: post ∧
      (registerVehicles exRegEnv 10 1 emptyOcc [⟨1, 0, 0⟩, ⟨2, 1, 0⟩]).1.table =
        pre.map (fun u => (u.id, nodesOfD exRegEnv 10 1 u)) ∧
      v.id ∉ ((registerVehicles exRegEnv 10 1 emptyOcc [⟨1, 0, 0⟩, ⟨2, 1, 0⟩]).1.table).map
        Prod.fst) :=
  ⟨⟨by decide, by decide⟩,
   C1_no_partial_entry_for_failing_vehicle exRegEnv 10 1 emptyOcc
     [⟨1, 0, 0⟩, ⟨2, 1, 0⟩] RegErr.collision (by decide) (by decide)⟩

/-- C10: the lattice resolution is the hardcoded constant 1 (not
caller-configurable in either constructor), the registration nearest-node
tolerance is therefore exactly 1/2, and whenever the estimated span is
≤ 1 the construction fails with the span-too-small error. -/
theorem C10_resolution_hardcoded (env : LSEnv) (r : Router) (renv : RegEnv)
    (fuel : Nat) (vs : List VehicleTuple) :
    trafficLatticeResolution = 1 ∧
    regTolerance trafficLatticeResolution = 1/2 ∧
    (∀ start range, latticeStartAndRange env r vs = some (start, range) →
      range ≤ 1 → buildTrafficLattice env r renv fuel vs = .error .spanTooSmall) := by
  refine ⟨rfl, by norm_num [regTolerance, trafficLatticeResolution], ?_⟩
  intro start range h hle
  unfold buildTrafficLattice
  rw [h]
  dsimp only
  have : range ≤ trafficLatticeResolution := by
    rw [show trafficLatticeResolution = (1 : ℚ) from rfl]
    exact hle
  rw [if_pos this]

/-- Witness for C10: the one-vehicle scenario on a half-unit road
estimates span 1/2 ≤ 1 and construction aborts with span-too-small. -/
theorem C10_resolution_hardcoded_witness :
    (latticeStartAndRange exLSEnvSmall exRouterNone [⟨1, 0, 0⟩] =
      some (⟨0, 1, 1/2⟩, 1/2)) ∧
    ((1 : ℚ)/2 ≤ 1) ∧
    buildTrafficLattice exLSEnvSmall exRouterNone exRegEnv 10 [⟨1, 0, 0⟩] =
      .error .spanTooSmall := by
  have hsr : sortRoads exRouterNone (roadsOf exLSEnvSmall [⟨1, 0, 0⟩]) = some [0] := by
    decide
  have h1 : latticeStartAndRange exLSEnvSmall exRouterNone [⟨1, 0, 0⟩] =
      some (⟨0, 1, 1/2⟩, 1/2) := by
    unfold latticeStartAndRange
    rw [hsr]
    norm_num [vehiclesOnRoad, sortByDist, insertByDist, centerRoad, exLSEnvSmall, wpDist]
  have h2 : ((1 : ℚ)/2 ≤ 1) := by norm_num
  exact ⟨h1, h2,
    (C10_resolution_hardcoded exLSEnvSmall exRouterNone exRegEnv 10 [⟨1, 0, 0⟩]).2.2
      ⟨0, 1, 1/2⟩ (1/2) h1 h2⟩

theorem prependStep_cov (r : Router) (roads : List Nat) (seed : Nat) (st : SRState)
    (fr : Nat) (h1 : st.sorted ≠ []) (h2 : seed ∈ st.sorted)
    (h3 : ∀ x ∈ roads, x ∈ st.sorted ∨ x ∈ st.remaining) :
    (prependStep r st fr).sorted ≠ [] ∧ seed ∈ (prependStep r st fr).sorted ∧
    ∀ x ∈ roads, x ∈ (prependStep r st fr).sorted ∨ x ∈ (prependStep r st fr).remaining := by
  unfold prependStep
  cases hp : r.prevRoad fr with
  | none => exact ⟨h1, h2, h3⟩
  | some nf =>
    refine ⟨by simp, List.mem_cons_of_mem _ h2, ?_⟩
    intro x hx
    rcases h3 x hx with hxs | hxr
    · exact Or.inl (List.mem_cons_of_mem _ hxs)
    · by_cases hxeq : x = nf
      · exact Or.inl (hxeq ▸ List.mem_cons_self _ _)
      · exact Or.inr ((List.mem_erase_of_ne hxeq).mpr hxr)

theorem appendStep_cov (r : Router) (roads : List Nat) (seed : Nat) (st : SRState)
    (ba : Nat) (h1 : st.sorted ≠ []) (h2 : seed ∈ st.sorted)
    (h3 : ∀ x ∈ roads, x ∈ st.sorted ∨ x ∈ st.remaining) :
    (appendStep r st ba).sorted ≠ [] ∧ seed ∈ (appendStep r st ba).sorted ∧
    ∀ x ∈ roads, x ∈ (appendStep r st ba).sorted ∨ x ∈ (appendStep r st ba).remaining := by
  unfold appendStep
  cases hn : r.nextRoad ba with
  | none => exact ⟨h1, h2, h3⟩
  | some nl =>
    refine ⟨by simp, List.mem_append_left _ h2, ?_⟩
    intro x hx
    rcases h3 x hx with hxs | hxr
    · exact Or.inl (List.mem_append_left _ hxs)
    · by_cases hxeq : x = nl
      · exact Or.inl (hxeq ▸ List.mem_append_right _ (List.mem_singleton.mpr rfl))
      · exact Or.inr ((List.mem_erase_of_ne hxeq).mpr hxr)

theorem expandRound_cov (r : Router) (roads : List Nat) (seed : Nat) (st : SRState)
    (h1 : st.sorted ≠ []) (h2 : seed ∈ st.sorted)
    (h3 : ∀ x ∈ roads, x ∈ st.sorted ∨ x ∈ st.remaining) :
    (expandRound r st).sorted ≠ [] ∧ seed ∈ (expandRound r st).sorted ∧
    ∀ x ∈ roads, x ∈ (expandRound r st).sorted ∨ x ∈ (expandRound r st).remaining := by
  obtain ⟨g1, g2, g3⟩ := prependStep_cov r roads seed st (st.sorted.headD 0) h1 h2 h3
  exact appendStep_cov r roads seed _ (st.sorted.getLastD 0) g1 g2 g3

theorem sortRoadsLoop_cov (r : Router) (roads : List Nat) (seed : Nat) (k : Nat)
    (st : SRState) (h1 : st.sorted ≠ []) (h2 : seed ∈ st.sorted)
    (h3 : ∀ x ∈ roads, x ∈ st.sorted ∨ x ∈ st.remaining) :
    (sortRoadsLoop r k st).sorted ≠ [] ∧ seed ∈ (sortRoadsLoop r k st).sorted ∧
    ∀ x ∈ roads, x ∈ (sortRoadsLoop r k st).sorted ∨
      x ∈ (sortRoadsLoop r k st).remaining := by
  induction k generalizing st with
  | zero => exact ⟨h1, h2, h3⟩
  | succ k ih =>
    rw [sortRoadsLoop_succ]
    obtain ⟨g1, g2, g3⟩ := expandRound_cov r roads seed st h1 h2 h3
    by_cases he : (expandRound r st).remaining = []
    · rw [if_pos he]
      exact ⟨g1, g2, g3⟩
    · rw [if_neg he]
      exact ih _ g1 g2 g3

/-- Endpoint and membership facts about a successful `sortRoads` call,
needing no assumptions on the router. -/
theorem sortRoads_endpoints (r : Router) (roads out : List Nat)
    (hout : sortRoads r roads = some out) :
    out ≠ [] ∧ out.headD 0 ∈ roads ∧ out.getLastD 0 ∈ roads ∧
    ∀ x ∈ roads, x ∈ out := by
  cases roads with
  | nil => exact absurd hout (by simp [sortRoads])
  | cons seed rest =>
    have hdef : sortRoads r (seed :: rest) =
        (if (sortRoadsLoop r 5 ⟨[seed], rest⟩).remaining = [] then
          some (trimBack (seed :: rest) (trimFront (seed :: rest)
            (sortRoadsLoop r 5 ⟨[seed], rest⟩).sorted.length
            (sortRoadsLoop r 5 ⟨[seed], rest⟩).sorted))
         else none) := rfl
    rw [hdef] at hout
    by_cases hrem : (sortRoadsLoop r 5 ⟨[seed], rest⟩).remaining = []
    · rw [if_pos hrem, Option.some_inj] at hout
      set st := sortRoadsLoop r 5 ⟨[seed], rest⟩ with hst
      obtain ⟨hne, hseed, hcov⟩ := sortRoadsLoop_cov r (seed :: rest) seed 5
        ⟨[seed], rest⟩ (by simp) (by simp)
        (by
          intro x hx
          rcases List.mem_cons.mp hx with rfl | hxr
          · exact Or.inl (by simp)
          · exact Or.inr hxr)
      have hcov' : ∀ x ∈ seed :: rest, x ∈ st.sorted := by
        intro x hx
        rcases hcov x hx with hxs | hxr
        · exact hxs
        · rw [hrem] at hxr
          cases hxr
      set l' := trimFront (seed :: rest) st.sorted.length st.sorted with hl'
      have hl'mem : ∀ x ∈ seed :: rest, x ∈ l' := fun x hx =>
        trimFront_mem (seed :: rest) _ _ x hx (hcov' x hx)
      have hl'ne : l' ≠ [] := fun hc => by
        have := hl'mem seed (by simp)
        rw [hc] at this
        cases this
      have hl'head : l'.headD 0 ∈ seed :: rest :=
        trimFront_headD_mem (seed :: rest) _ _ (le_refl _) hl'ne
      have houtrev : out.reverse = trimFront (seed :: rest) l'.reverse.length l'.reverse := by
        rw [← hout]
        unfold trimBack
        rw [List.reverse_reverse]
      have houtmem : ∀ x ∈ seed :: rest, x ∈ out := by
        intro x hx
        rw [← List.mem_reverse, houtrev]
        exact trimFront_mem _ _ _ x hx (List.mem_reverse.mpr (hl'mem x hx))
      have houtne : out ≠ [] := fun hc => by
        have := houtmem seed (by simp)
        rw [hc] at this
        cases this
      have houtrevne : out.reverse ≠ [] := by
        intro hc
        exact houtne (by simpa using congrArg List.reverse hc)
      obtain ⟨j₂, hj₂⟩ := trimFront_drop (seed :: rest) l'.reverse.length l'.reverse
      have houtlast : out.getLastD 0 ∈ seed :: rest := by
        rw [← headD_reverse out 0, houtrev]
        exact trimFront_headD_mem _ _ _ (le_refl _) (by rwa [← houtrev])
      have houthead : out.headD 0 ∈ seed :: rest := by
        have h1 : out.headD 0 = out.reverse.getLastD 0 := by
          have := headD_reverse out.reverse 0
          rwa [List.reverse_reverse] at this
        have h2 : out.reverse.getLastD 0 = l'.reverse.getLastD 0 := by
          rw [houtrev, hj₂]
          exact getLastD_drop j₂ l'.reverse 0 (by rw [← hj₂, ← houtrev]; exact houtrevne)
        have h3 : l'.reverse.getLastD 0 = l'.headD 0 := by
          have := headD_reverse l'.reverse 0
          rw [List.reverse_reverse] at this
          exact this.symm
        rw [h1, h2, h3]
        exact hl'head
      exact ⟨houtne, houthead, houtlast, houtmem⟩
    · rw [if_neg hrem] at hout
      cases hout

theorem getLastD_cons_ne_nil {α : Type} (a d : α) (l : List α) (h : l ≠ []) :
    (a :: l).getLastD d = l.getLastD d := by
  rw [List.getLastD_cons, List.getLastD_eq_getLast?, List.getLastD_eq_getLast?]
  cases hq : l.getLast? with
  | none => exact absurd (List.getLast?_eq_none_iff.mp hq) h
  | some v => rfl

theorem headD_mem {α : Type} [Inhabited α] (l : List α) (h : l ≠ []) :
    l.headD default ∈ l := by
  cases l with
  | nil => exact absurd rfl h
  | cons a t => exact List.mem_cons_self _ _

theorem getLastD_mem {α : Type} [Inhabited α] :
    ∀ (l : List α), l ≠ [] → l.getLastD default ∈ l
  | [], h => absurd rfl h
  | [a], _ => List.mem_cons_self _ _
  | a :: b :: t, _ => by
    rw [getLastD_cons_ne_nil a default (b :: t) (by simp)]
    exact List.mem_cons_of_mem _ (getLastD_mem (b :: t) (by simp))

theorem mem_insertByDist (env : LSEnv) (v : VehicleTuple) :
    ∀ (l : List VehicleTuple) (x : VehicleTuple),
      x ∈ insertByDist env v l ↔ x = v ∨ x ∈ l := by
  intro l
  induction l with
  | nil => intro x; simp [insertByDist]
  | cons u us ih =>
    intro x
    unfold insertByDist
    by_cases hlt : vehicleDist env v < vehicleDist env u
    · rw [if_pos hlt]
      simp
    · rw [if_neg hlt]
      simp only [List.mem_cons, ih]
      tauto

theorem mem_sortByDist (env : LSEnv) :
    ∀ (l : List VehicleTuple) (x : VehicleTuple), x ∈ sortByDist env l ↔ x ∈ l := by
  intro l
  induction l with
  | nil => intro x; simp [sortByDist]
  | cons u us ih =>
    intro x
    unfold sortByDist
    rw [mem_insertByDist, ih]
    simp

theorem chain'_insertByDist (env : LSEnv) (v : VehicleTuple) :
    ∀ (l : List VehicleTuple),
      List.Chain' (fun a b => vehicleDist env a ≤ vehicleDist env b) l →
      List.Chain' (fun a b => vehicleDist env a ≤ vehicleDist env b)
        (insertByDist env v l) := by
  intro l
  induction l with
  | nil => intro _; exact List.chain'_singleton v
  | cons u us ih =>
    intro hch
    unfold insertByDist
    by_cases hlt : vehicleDist env v < vehicleDist env u
    · rw [if_pos hlt]
      exact List.chain'_cons.mpr ⟨le_of_lt hlt, hch⟩
    · rw [if_neg hlt]
      obtain ⟨hhd, hch'⟩ := List.chain'_cons'.mp hch
      refine List.chain'_cons'.mpr ⟨?_, ih hch'⟩
      intro y hy
      cases us with
      | nil =>
        have hyv : v = y := by
          simpa [insertByDist] using hy
        rw [← hyv]
        exact not_lt.mp hlt
      | cons w ws =>
        unfold insertByDist at hy
        by_cases hlt2 : vehicleDist env v < vehicleDist env w
        · rw [if_pos hlt2] at hy
          have hyv : v = y := by simpa using hy
          rw [← hyv]
          exact not_lt.mp hlt
        · rw [if_neg hlt2] at hy
          have hyw : w = y := by simpa using hy
          rw [← hyw]
          exact hhd w rfl

theorem chain'_sortByDist (env : LSEnv) :
    ∀ (l : List VehicleTuple),
      List.Chain' (fun a b => vehicleDist env a ≤ vehicleDist env b)
        (sortByDist env l) := by
  intro l
  induction l with
  | nil => exact List.chain'_nil
  | cons u us ih => exact chain'_insertByDist env u _ ih

theorem chain_headD_le (env : LSEnv) :
    ∀ (l : List VehicleTuple),
      List.Chain' (fun a b => vehicleDist env a ≤ vehicleDist env b) l →
      ∀ u ∈ l, vehicleDist env (l.headD default) ≤ vehicleDist env u := by
  intro l
  induction l with
  | nil => intro _ u hu; cases hu
  | cons x xs ih =>
    intro hch u hu
    rcases List.mem_cons.mp hu with rfl | hu'
    · exact le_refl _
    · obtain ⟨hhd, hch'⟩ := List.chain'_cons'.mp hch
      have h1 : vehicleDist env x ≤ vehicleDist env (xs.headD default) := by
        cases xs with
        | nil => cases hu'
        | cons y ys => exact hhd y rfl
      exact le_trans h1 (ih hch' u hu')

theorem chain_le_getLastD (env : LSEnv) :
    ∀ (l : List VehicleTuple),
      List.Chain' (fun a b => vehicleDist env a ≤ vehicleDist env b) l →
      ∀ u ∈ l, vehicleDist env u ≤ vehicleDist env (l.getLastD default) := by
  intro l
  induction l with
  | nil => intro _ u hu; cases hu
  | cons x xs ih =>
    intro hch u hu
    cases hxs : xs with
    | nil =>
      subst hxs
      rcases List.mem_cons.mp hu with rfl | hu'
      · exact le_refl _
      · cases hu'
    | cons y ys =>
      subst hxs
      obtain ⟨hhd, hch'⟩ := List.chain'_cons'.mp hch
      rw [getLastD_cons_ne_nil x default (y :: ys) (by simp)]
      rcases List.mem_cons.mp hu with rfl | hu'
      · have h1 : vehicleDist env u ≤ vehicleDist env y := hhd y rfl
        have h2 : vehicleDist env y ≤ vehicleDist env ((y :: ys).getLastD default) :=
          ih hch' y (List.mem_cons_self _ _)
        exact le_trans h1 h2
      · exact ih hch' u hu'

/-- C4: on success, `latticeStartAndRange` returns as start the rear
reference waypoint of the first vehicle — a vehicle on the chain's first
road with minimal distance-from-road-start — and as range the sum of the
chain's road lengths, minus the rear point's distance-from-road-start if
it resolves onto the chain's first road (plus a 5-unit margin otherwise),
and minus (last road length − head point's distance-from-road-start) if
the last vehicle's head point resolves onto the chain's last road (plus a
5-unit margin otherwise). -/
theorem C4_latticeStartAndRange_spec (env : LSEnv) (r : Router)
    (vs : List VehicleTuple) (start : Wp) (range : ℚ) (sorted : List Nat)
    (hsorted : sortRoads r (roadsOf env vs) = some sorted)
    (h : latticeStartAndRange env r vs = some (start, range)) :
    ∃ fv lv, fv ∈ vs ∧ lv ∈ vs ∧
      centerRoad env fv = sorted.headD 0 ∧
      centerRoad env lv = sorted.getLastD 0 ∧
      (∀ u ∈ vs, centerRoad env u = sorted.headD 0 →
        vehicleDist env fv ≤ vehicleDist env u) ∧
      (∀ u ∈ vs, centerRoad env u = sorted.getLastD 0 →
        vehicleDist env u ≤ vehicleDist env lv) ∧
      start = env.rearWp fv.transform fv.bbox ∧
      range = (sorted.map env.roadLength).sum
        + (if (env.rearWp fv.transform fv.bbox).roadId = sorted.headD 0 then
            - wpDist env (env.rearWp fv.transform fv.bbox) else 5)
        + (if (env.headWp lv.transform lv.bbox).roadId = sorted.getLastD 0 then
            - (env.roadLength (sorted.getLastD 0) -
               wpDist env (env.headWp lv.transform lv.bbox)) else 5) := by
  obtain ⟨hne, hhd, hlast, _⟩ := sortRoads_endpoints r (roadsOf env vs) sorted hsorted
  -- The distinguished first and last vehicles.
  have hfrne : vehiclesOnRoad env vs (sorted.headD 0) ≠ [] := by
    unfold roadsOf at hhd
    rw [List.mem_dedup, List.mem_map] at hhd
    obtain ⟨v0, hv0, hv0c⟩ := hhd
    intro hc
    have hv0f : v0 ∈ vs.filter (fun v => centerRoad env v == sorted.headD 0) :=
      List.mem_filter.mpr ⟨hv0, by simp [hv0c]⟩
    have : v0 ∈ vehiclesOnRoad env vs (sorted.headD 0) :=
      (mem_sortByDist env _ v0).mpr hv0f
    rw [hc] at this
    cases this
  have hlrne : vehiclesOnRoad env vs (sorted.getLastD 0) ≠ [] := by
    unfold roadsOf at hlast
    rw [List.mem_dedup, List.mem_map] at hlast
    obtain ⟨v0, hv0, hv0c⟩ := hlast
    intro hc
    have hv0f : v0 ∈ vs.filter (fun v => centerRoad env v == sorted.getLastD 0) :=
      List.mem_filter.mpr ⟨hv0, by simp [hv0c]⟩
    have : v0 ∈ vehiclesOnRoad env vs (sorted.getLastD 0) :=
      (mem_sortByDist env _ v0).mpr hv0f
    rw [hc] at this
    cases this
  refine ⟨(vehiclesOnRoad env vs (sorted.headD 0)).headD default,
    (vehiclesOnRoad env vs (sorted.getLastD 0)).getLastD default, ?_, ?_, ?_, ?_, ?_, ?_, ?_, ?_⟩
  · have := headD_mem _ hfrne
    have h2 := (mem_sortByDist env _ _).mp this
    exact (List.mem_filter.mp h2).1
  · have := getLastD_mem _ hlrne
    have h2 := (mem_sortByDist env _ _).mp this
    exact (List.mem_filter.mp h2).1
  · have := headD_mem _ hfrne
    have h2 := (mem_sortByDist env _ _).mp this
    have h3 := (List.mem_filter.mp h2).2
    simpa using h3
  · have := getLastD_mem _ hlrne
    have h2 := (mem_sortByDist env _ _).mp this
    have h3 := (List.mem_filter.mp h2).2
    simpa using h3
  · intro u hu huc
    have huf : u ∈ vs.filter (fun v => centerRoad env v == sorted.headD 0) :=
      List.mem_filter.mpr ⟨hu, by simp [huc]⟩
    have hus : u ∈ vehiclesOnRoad env vs (sorted.headD 0) :=
      (mem_sortByDist env _ u).mpr huf
    exact chain_headD_le env _ (chain'_sortByDist env _) u hus
  · intro u hu huc
    have huf : u ∈ vs.filter (fun v => centerRoad env v == sorted.getLastD 0) :=
      List.mem_filter.mpr ⟨hu, by simp [huc]⟩
    have hus : u ∈ vehiclesOnRoad env vs (sorted.getLastD 0) :=
      (mem_sortByDist env _ u).mpr huf
    exact chain_le_getLastD env _ (chain'_sortByDist env _) u hus
  · unfold latticeStartAndRange at h
    rw [hsorted] at h
    dsimp only at h
    rw [Option.some_inj, Prod.mk.injEq] at h
    exact h.1.symm
  · unfold latticeStartAndRange at h
    rw [hsorted] at h
    dsimp only at h
    rw [Option.some_inj, Prod.mk.injEq] at h
    rw [← h.2]
    by_cases c1 : (env.rearWp ((vehiclesOnRoad env vs (sorted.headD 0)).headD
        default).transform ((vehiclesOnRoad env vs (sorted.headD 0)).headD
        default).bbox).roadId = sorted.headD 0 <;>
      by_cases c2 : (env.headWp ((vehiclesOnRoad env vs (sorted.getLastD 0)).getLastD
        default).transform ((vehiclesOnRoad env vs (sorted.getLastD 0)).getLastD
        default).bbox).roadId = sorted.getLastD 0 <;>
      simp only [c1, c2, if_true, if_false] <;> ring

/-- Witness for C4: with the two-vehicle scenario the start is the rear
point of the nearer vehicle (distance 3) and the range is
100 − 3 − (100 − 9) = 6. -/
theorem C4_latticeStartAndRange_spec_witness :
    (sortRoads exRouterNone (roadsOf exLSEnvW [⟨1, 7, 0⟩, ⟨2, 3, 0⟩]) = some [0]) ∧
    (latticeStartAndRange exLSEnvW exRouterNone [⟨1, 7, 0⟩, ⟨2, 3, 0⟩] =
      some (⟨0, -1, 3⟩, 6)) ∧
    (∃ fv lv, fv ∈ [(⟨1, 7, 0⟩ : VehicleTuple), ⟨2, 3, 0⟩] ∧
      lv ∈ [(⟨1, 7, 0⟩ : VehicleTuple), ⟨2, 3, 0⟩] ∧
      centerRoad exLSEnvW fv = ([0] : List Nat).headD 0 ∧
      centerRoad exLSEnvW lv = ([0] : List Nat).getLastD 0 ∧
      (∀ u ∈ [(⟨1, 7, 0⟩ : VehicleTuple), ⟨2, 3, 0⟩],
        centerRoad exLSEnvW u = ([0] : List Nat).headD 0 →
        vehicleDist exLSEnvW fv ≤ vehicleDist exLSEnvW u) ∧
      (∀ u ∈ [(⟨1, 7, 0⟩ : VehicleTuple), ⟨2, 3, 0⟩],
        centerRoad exLSEnvW u = ([0] : List Nat).getLastD 0 →
        vehicleDist exLSEnvW u ≤ vehicleDist exLSEnvW lv) ∧
      (⟨0, -1, 3⟩ : Wp) = exLSEnvW.rearWp fv.transform fv.bbox ∧
      (6 : ℚ) = (([0] : List Nat).map exLSEnvW.roadLength).sum
        + (if (exLSEnvW.rearWp fv.transform fv.bbox).roadId = ([0] : List Nat).headD 0 then
            - wpDist exLSEnvW (exLSEnvW.rearWp fv.transform fv.bbox) else 5)
        + (if (exLSEnvW.headWp lv.transform lv.bbox).roadId = ([0] : List Nat).getLastD 0 then
            - (exLSEnvW.roadLength (([0] : List Nat).getLastD 0) -
               wpDist exLSEnvW (exLSEnvW.headWp lv.transform lv.bbox)) else 5)) := by
  have hsr : sortRoads exRouterNone (roadsOf exLSEnvW [⟨1, 7, 0⟩, ⟨2, 3, 0⟩]) =
      some [0] := by decide
  have h : latticeStartAndRange exLSEnvW exRouterNone [⟨1, 7, 0⟩, ⟨2, 3, 0⟩] =
      some (⟨0, -1, 3⟩, 6) := by
    unfold latticeStartAndRange
    rw [hsr]
    norm_num [vehiclesOnRoad, sortByDist, insertByDist, vehicleDist, centerRoad,
      wpDist, exLSEnvW, List.filter]
  exact ⟨hsr, h,
    C4_latticeStartAndRange_spec exLSEnvW exRouterNone [⟨1, 7, 0⟩, ⟨2, 3, 0⟩]
      ⟨0, -1, 3⟩ 6 [0] hsr h⟩

/-- C9: with the real sine, cosine and π, the head reference point is the
center plus `(extent·cos(yaw·π/180), extent·sin(yaw·π/180))` in the x,y
plane with z unchanged, and the rear reference point is the center minus
the same offset. -/
theorem C9_vehicle_reference_points (tf : TransformR) (bb : BoundingBoxR) :
    vehicleHeadWaypointLocation Real.sin Real.cos Real.pi tf bb =
      ⟨tf.location.x + bb.extentX * Real.cos (tf.rotation.yaw * Real.pi / 180),
       tf.location.y + bb.extentX * Real.sin (tf.rotation.yaw * Real.pi / 180),
       tf.location.z⟩ ∧
    vehicleRearWaypointLocation Real.sin Real.cos Real.pi tf bb =
      ⟨tf.location.x - bb.extentX * Real.cos (tf.rotation.yaw * Real.pi / 180),
       tf.location.y - bb.extentX * Real.sin (tf.rotation.yaw * Real.pi / 180),
       tf.location.z⟩ := by
  have harg : tf.rotation.yaw / 180 * Real.pi = tf.rotation.yaw * Real.pi / 180 := by
    ring
  unfold vehicleHeadWaypointLocation vehicleRearWaypointLocation
  rw [harg]
  constructor <;>
  · simp only [LocationR.mk.injEq]
    exact ⟨by ring, by ring, trivial⟩
